import Mathlib

/-!
Verification development for the streaming HTML parsing pipeline of the
`lavignes/web` repository: the newline normalizer (src/io/newline_normalize.rs),
the interned document store (src/dom.rs, together with the store operations the
normative tree-constructor draft requires), the HTML5 tokenizer state machine
(src/html/tokenizer.rs) and the tree constructor (src/html/parser.rs).

Machine integers (`usize`) are modelled as `Nat`; `usize::MAX`, the invalid
node id, is the explicit constant `invalidNodeId = 2 ^ 64 - 1`. Strings are
modelled through their UTF-8 byte sequences (`List Nat`), matching the byte
pools of the store. Fallible code paths (`unwrap`, `todo!`, `unreachable!`,
panicking library calls) are modelled with `Option`/`Except` or an explicit
`diverge` result.
-/

set_option maxRecDepth 10000

/-- UTF-8 byte length of a character, as Rust's `char::len_utf8`. -/
def utf8Len (c : Char) : Nat :=
  if c.toNat < 0x80 then 1
  else if c.toNat < 0x800 then 2
  else if c.toNat < 0x10000 then 3
  else 4

/-- UTF-8 encoding of a character as a list of byte values. -/
def utf8Bytes (c : Char) : List Nat :=
  let n := c.toNat
  if n < 0x80 then [n]
  else if n < 0x800 then [0xC0 + n / 0x40, 0x80 + n % 0x40]
  else if n < 0x10000 then
    [0xE0 + n / 0x1000, 0x80 + (n / 0x40) % 0x40, 0x80 + n % 0x40]
  else
    [0xF0 + n / 0x40000, 0x80 + (n / 0x1000) % 0x40, 0x80 + (n / 0x40) % 0x40,
      0x80 + n % 0x40]

/-- UTF-8 bytes of a character list (a Rust `&str` viewed as bytes). -/
def strBytes (s : List Char) : List Nat :=
  s.flatMap utf8Bytes

/-- The newline normalizer from src/io/newline_normalize.rs
(`NewlineNormalized::next`): a CR followed by LF yields `(2, LF)`, a lone CR
yields `(1, LF)`, and any other character `c` yields `(1, c)`. -/
def newlineNormalized : List Char → List (Nat × Char)
  | [] => []
  | '\r' :: '\n' :: rest2 => (2, '\n') :: newlineNormalized rest2
  | '\r' :: rest => (1, '\n') :: newlineNormalized rest
  | c :: rest => (1, c) :: newlineNormalized rest

/-- Source location, src/io/mod.rs `Location`. -/
structure Location where
  line : Nat
  column : Nat
  deriving DecidableEq, Repr

/-- The reserved empty-range index of the store (src/dom.rs). -/
def emptyRangeIndex : Nat := 0

/-- Vector index of the synthetic root node (src/dom.rs `ROOT_NODE_INDEX`). -/
def rootNodeIndex : Nat := 0

/-- Stable id of the root node (src/dom.rs `ROOT_NODE_ID`). -/
def rootNodeId : Nat := 0

/-- The invalid node id, src/dom.rs `INVALID_NODE_ID = usize::MAX`. -/
def invalidNodeId : Nat := 2 ^ 64 - 1

/-- Text node, src/dom.rs `TextNode`: a stable id and a direct byte range
into the text pool (`stop` is Rust's exclusive `end`). -/
structure TextNode where
  id : Nat
  start : Nat
  stop : Nat
  deriving DecidableEq, Repr

/-- Element node, src/dom.rs `ElementNode`: stable id plus interned name,
attribute-range and kids-range indices. -/
structure ElementNode where
  id : Nat
  name : Nat
  attrs : Nat
  kids : Nat
  deriving DecidableEq, Repr

/-- Node variants, src/dom.rs `Node`. -/
inductive Node where
  | text (t : TextNode)
  | element (e : ElementNode)
  deriving DecidableEq, Repr

/-- Stable id of a node, src/dom.rs `Node::id`. -/
def Node.id : Node → Nat
  | .text t => t.id
  | .element e => e.id

/-- Validity of a node, src/dom.rs `Node::is_valid`. -/
def Node.isValid (n : Node) : Bool :=
  n.id ≠ invalidNodeId

/-- Invalidation of a node, src/dom.rs `Node::invalidate`. -/
def Node.invalidate : Node → Node
  | .text t => .text { t with id := invalidNodeId }
  | .element e => .element { e with id := invalidNodeId }

/-- Search for the first occurrence of a nonempty needle as a contiguous
sub-sequence of `items`, as `slice::windows(len).position` does in
src/dom.rs `Soup::find`. Returns the start position. An empty needle is
answered with `none` here; the panic the source exhibits on an empty needle
(`windows(0)`) is modelled separately by `soupFindE` for claim C8. -/
def findSub (items needle : List Nat) : Option Nat :=
  if needle = [] then none
  else
    go items 0
where
  go : List Nat → Nat → Option Nat
    | [], _ => none
    | l@(_ :: rest), i =>
      if l.take needle.length = needle then some i
      else go rest (i + 1)

/-- Soup.find from src/dom.rs, with the `windows(0)` panic on an empty
needle modelled as `.error ()`. -/
def soupFindE (items needle : List Nat) : Except Unit (Option (Nat × Nat)) :=
  if needle = [] then .error ()
  else .ok ((findSub items needle).map fun s => (s, s + needle.length))

/-- Soup.append from src/dom.rs, panic-faithful: dedups through `soupFindE`
(so an empty needle is the `windows(0)` panic), otherwise appends at the end
and returns the new range. -/
def soupAppendE (items needle : List Nat) :
    Except Unit (List Nat × (Nat × Nat)) :=
  match soupFindE items needle with
  | .error _ => .error ()
  | .ok (some r) => .ok (items, r)
  | .ok none => .ok (items ++ needle, (items.length, items.length + needle.length))

/-- Total variant of src/dom.rs `Soup::append` used by the pipeline store;
every pipeline call site passes a nonempty needle, on which it agrees with
`soupAppendE`. On the empty needle (where the source panics, claim C8) it
returns the empty range at the current end. -/
def soupAppend (items needle : List Nat) : List Nat × (Nat × Nat) :=
  match findSub items needle with
  | some s => (items, (s, s + needle.length))
  | none => (items ++ needle, (items.length, items.length + needle.length))

/-- Position of the first occurrence of a range pair in the range pool
(src/dom.rs `Soup::find` at needle length one, over `Soup<Range<usize>>`). -/
def findPair (items : List (Nat × Nat)) (p : Nat × Nat) : Option Nat :=
  go items 0
where
  go : List (Nat × Nat) → Nat → Option Nat
    | [], _ => none
    | q :: rest, i => if q = p then some i else go rest (i + 1)

/-- The document store, src/dom.rs `Dom`: byte text pool, range pool, node
vector, monotone id counter and attribute pool. The scratch buffers
(`node_buf`, `attr_buf`) of the source are modelled by local lists inside
each operation. -/
structure Dom where
  text : List Nat
  ranges : List (Nat × Nat)
  nodes : List Node
  nodeIdCounter : Nat
  attrs : List (Nat × Nat)
  deriving DecidableEq, Repr

/-- Dom::new from src/dom.rs: range 0 is the empty range, node 0 the root
element with empty name, attrs and kids. -/
def Dom.new : Dom :=
  { text := []
    ranges := [(0, 0)]
    nodes := [.element { id := rootNodeId, name := emptyRangeIndex,
                         attrs := emptyRangeIndex, kids := emptyRangeIndex }]
    nodeIdCounter := 0
    attrs := [] }

/-- Dom::insert_range from src/dom.rs: intern one range pair in the range
pool (append with dedup) and return its pool index. -/
def Dom.insertRange (d : Dom) (r : Nat × Nat) : Dom × Nat :=
  match findPair d.ranges r with
  | some i => (d, i)
  | none => ({ d with ranges := d.ranges ++ [r] }, d.ranges.length)

/-- Dom::insert_text / the normative draft's `insert_str`: intern a string
(as bytes) in the text pool, deduplicated by byte search, and intern the
resulting range. Modelled from the spec: for the empty string it returns the
reserved sentinel range id 0 (the src/dom.rs draft panics there, claim C8). -/
def Dom.insertStr (d : Dom) (s : List Char) : Dom × Nat :=
  let bs := strBytes s
  if bs = [] then (d, emptyRangeIndex)
  else
    let (text2, r) := soupAppend d.text bs
    Dom.insertRange { d with text := text2 } r

/-- Panic-faithful src/dom.rs `Dom::insert_text`: `Soup::append` on the
text pool (which panics on the empty string) followed by `insert_range`. -/
def Dom.insertTextE (d : Dom) (s : List Char) : Except Unit (Dom × Nat) :=
  match soupAppendE d.text (strBytes s) with
  | .error _ => .error ()
  | .ok (text2, r) => .ok (Dom.insertRange { d with text := text2 } r)

/-- Dom::find_text from src/dom.rs (the normative draft's `find_str`):
lookup only, never inserts. Empty-needle calls do not occur in the parser;
they are answered `none` (the source would panic in `windows(0)`). -/
def Dom.findStr (d : Dom) (s : List Char) : Option Nat :=
  match findSub d.text (strBytes s) with
  | none => none
  | some st => findPair d.ranges (st, st + (strBytes s).length)

/-- Modelled from the spec: the normative draft's `insert_attrs(pairs)` is
missing from src/dom.rs; per the spec it copies the pairs to the end of the
attribute pool and interns a range id for the new slice. -/
def Dom.insertAttrs (d : Dom) (pairs : List (Nat × Nat)) : Dom × Nat :=
  let start := d.attrs.length
  let stop := start + pairs.length
  Dom.insertRange { d with attrs := d.attrs ++ pairs } (start, stop)

/-- Dom::append_char from src/dom.rs: append one character's UTF-8 bytes to
the text pool with no range bookkeeping. -/
def Dom.appendChar (d : Dom) (c : Char) : Dom :=
  { d with text := d.text ++ utf8Bytes c }

/-- Dom::get_node_by_id from src/dom.rs: linear scan for the first node
whose stable id matches, returning its vector index and a copy. -/
def findNode (l : List Node) (id : Nat) : Option (Nat × Node) :=
  go l 0
where
  go : List Node → Nat → Option (Nat × Node)
    | [], _ => none
    | n :: rest, i => if n.id = id then some (i, n) else go rest (i + 1)

/-- Dom::get_node_by_id from src/dom.rs. -/
def Dom.getNodeById (d : Dom) (id : Nat) : Option (Nat × Node) :=
  findNode d.nodes id

/-- Dom::get_element_node from src/dom.rs: id lookup filtered to element
nodes, keeping the vector index of the handle. -/
def Dom.getElementNode (d : Dom) (id : Nat) : Option (Nat × ElementNode) :=
  match d.getNodeById id with
  | some (i, .element e) => some (i, e)
  | _ => none

/-- Dom::get_text_node_by_id from src/dom.rs (the normative draft's
`get_text_node`). -/
def Dom.getTextNode (d : Dom) (id : Nat) : Option (Nat × TextNode) :=
  match d.getNodeById id with
  | some (i, .text t) => some (i, t)
  | _ => none

/-- Dom::get_node_id_by_index from src/dom.rs. -/
def Dom.getNodeIdByIndex (d : Dom) (index : Nat) : Option Nat :=
  (d.nodes.get? index).map Node.id

/-- Resolve a range-pool index to its pair, as `self.ranges.items[i]`
(out of bounds is the source's index panic, modelled as `none`). -/
def Dom.rangeAt (d : Dom) (i : Nat) : Option (Nat × Nat) :=
  d.ranges.get? i

/-- ElementNodeHandle::child_indicies from src/dom.rs: the node-vector index
range of the element's children. -/
def Dom.childIndices (d : Dom) (e : ElementNode) : Option (Nat × Nat) :=
  d.rangeAt e.kids

/-- Invalidate the nodes whose vector index lies in `[s, e)`, as the loop over
`&mut self.dom.nodes[kids]` does in src/dom.rs `append_child_element`. -/
def invalidateRange (l : List Node) (s e : Nat) : List Node :=
  go 0 l
where
  go : Nat → List Node → List Node
    | _, [] => []
    | i, n :: rest => (if s ≤ i ∧ i < e then n.invalidate else n) :: go (i + 1) rest

/-- ElementNodeHandleMut::append_child_element from src/dom.rs: copy the
current children (range `[s, e)` of the node vector) aside, invalidating the
originals, append the new element child, re-append the whole group at the end
of the node vector, intern the new kids range and update the parent. The
handle is the pair of vector index and cached node, as in the source. The
`attrs` argument is an already-interned attribute-range id, following the
normative tree-constructor draft (Modelled from the spec: the src/dom.rs
draft instead copies a raw pair slice into the attribute pool first; the
node protocol, which the claims are about, is identical). Out-of-bounds kid
ranges are the source's slice-index panic, modelled as `none`. -/
def Dom.appendChildElementAt (d : Dom) (idx : Nat) (parent : ElementNode)
    (name attrsId : Nat) : Option (Dom × Nat) :=
  match d.rangeAt parent.kids with
  | none => none
  | some (s, e) =>
    if s ≤ e ∧ e ≤ d.nodes.length then
      let oldKids := (d.nodes.drop s).take (e - s)
      let nodes1 := invalidateRange d.nodes s e
      let newId := d.nodeIdCounter + 1
      let newChild : Node := .element
        { id := newId, name := name, attrs := attrsId, kids := emptyRangeIndex }
      let start := nodes1.length
      let nodes2 := nodes1 ++ oldKids ++ [newChild]
      let (d2, kidsId) := Dom.insertRange
        { d with nodes := nodes2, nodeIdCounter := newId }
        (start, start + (oldKids.length + 1))
      some ({ d2 with nodes := d2.nodes.set idx (.element { parent with kids := kidsId }) },
            newId)
    else none

/-- ElementNodeHandleMut::append_child_text from src/dom.rs: same relocation
protocol as `append_child_element`, with the new child a text node whose
range comes from appending (deduplicated) the text bytes to the text pool. -/
def Dom.appendChildTextAt (d : Dom) (idx : Nat) (parent : ElementNode)
    (s : List Char) : Option (Dom × Nat) :=
  match d.rangeAt parent.kids with
  | none => none
  | some (ks, ke) =>
    if ks ≤ ke ∧ ke ≤ d.nodes.length then
      let oldKids := (d.nodes.drop ks).take (ke - ks)
      let nodes1 := invalidateRange d.nodes ks ke
      let newId := d.nodeIdCounter + 1
      let (text2, r) := soupAppend d.text (strBytes s)
      let newChild : Node := .text { id := newId, start := r.1, stop := r.2 }
      let start := nodes1.length
      let nodes2 := nodes1 ++ oldKids ++ [newChild]
      let (d2, kidsId) := Dom.insertRange
        { d with text := text2, nodes := nodes2, nodeIdCounter := newId }
        (start, start + (oldKids.length + 1))
      some ({ d2 with nodes := d2.nodes.set idx (.element { parent with kids := kidsId }) },
            newId)
    else none

/-- TextNodeHandleMut::set_text from src/dom.rs: append the new text to the
text pool (deduplicated through `Soup::append`) and point the node's range at
it. -/
def Dom.setTextAt (d : Dom) (idx : Nat) (t : TextNode) (s : List Char) :
    Dom × TextNode :=
  let (text2, r) := soupAppend d.text (strBytes s)
  let t2 := { t with start := r.1, stop := r.2 }
  ({ d with text := text2, nodes := (d.nodes.set idx (.text t2)) }, t2)

/-- Merge the new attribute pairs into the current list, keeping only pairs
whose name is not already present. Modelled from the spec:
`insert_missing_attrs(attrs_id)` "merges new attribute names only; existing
names are left untouched". -/
def mergeMissing (cur : List (Nat × Nat)) : List (Nat × Nat) → List (Nat × Nat)
  | [] => cur
  | (n, v) :: rest =>
    if cur.any fun p => p.1 = n then mergeMissing cur rest
    else mergeMissing (cur ++ [(n, v)]) rest

/-- Resolve an attribute-range id to the pair list it denotes. -/
def Dom.attrSlice (d : Dom) (rid : Nat) : Option (List (Nat × Nat)) :=
  match d.rangeAt rid with
  | some (s, e) =>
    if s ≤ e ∧ e ≤ d.attrs.length then some ((d.attrs.drop s).take (e - s))
    else none
  | none => none

/-- Modelled from the spec: the normative draft's
`insert_missing_attrs(attrs_id)` is missing from src/dom.rs. Per the spec it
merges only attribute names not already present on the element, leaving
existing names untouched, and grows the attribute list by the same
copy-to-the-end protocol as sibling blocks. -/
def Dom.insertMissingAttrsAt (d : Dom) (idx : Nat) (el : ElementNode)
    (attrsId : Nat) : Option Dom :=
  match d.attrSlice el.attrs, d.attrSlice attrsId with
  | some cur, some newPairs =>
    let merged := mergeMissing cur newPairs
    let start := d.attrs.length
    let (d2, attrsId2) := Dom.insertRange
      { d with attrs := d.attrs ++ merged } (start, start + merged.length)
    some { d2 with nodes := d2.nodes.set idx (.element { el with attrs := attrsId2 }) }
  | _, _ => none

/-- Decimal digits of a number as ASCII bytes (what `write!` renders for a
`usize`). -/
def natDecimal (n : Nat) : List Nat :=
  strBytes (Nat.repr n).data

/-- Text-pool slice of a range-pool index, src/dom.rs `Dom::get_text`
composed with `range_to_text`; out-of-bounds is the source's index panic. -/
def Dom.getTextBytes (d : Dom) (rid : Nat) : Option (List Nat) :=
  match d.rangeAt rid with
  | some (s, e) =>
    if s ≤ e ∧ e ≤ d.text.length then some ((d.text.drop s).take (e - s))
    else none
  | none => none

/-- Dom::write_node from src/dom.rs, producing the bytes written: `depth`
space bytes of indentation, then for a text node the line
`<:{id}>{text}` and for an element the line `<{name}:{id}>` followed by its
children at `depth + 2`. -/
def writeNode (d : Dom) : Nat → Nat → Node → Option (List Nat)
  | 0, _, _ => none
  | _ + 1, depth, .text t =>
    if t.start ≤ t.stop ∧ t.stop ≤ d.text.length then
      some (List.replicate depth 32 ++ strBytes "<:".data ++ natDecimal t.id
        ++ [62] ++ (d.text.drop t.start).take (t.stop - t.start) ++ [10])
    else none
  | fuel + 1, depth, .element e =>
    match d.getTextBytes e.name, d.rangeAt e.kids with
    | some name, some (s, e2) =>
      if s ≤ e2 ∧ e2 ≤ d.nodes.length then
        let kids := (d.nodes.drop s).take (e2 - s)
        let head := List.replicate depth 32 ++ [60] ++ name ++ [58]
          ++ natDecimal e.id ++ [62, 10]
        kids.foldlM (fun acc kid => (writeNode d fuel (depth + 2) kid).map (acc ++ ·))
          head
      else none
    | _, _ => none

/-- Dom::write_tree from src/dom.rs: render the root node at depth 0. -/
def Dom.writeTree (d : Dom) (fuel : Nat) : Option (List Nat) :=
  match d.nodes.get? rootNodeIndex with
  | some n => writeNode d fuel 0 n
  | none => none

/-- Token variants, src/html/tokenizer.rs `Token`: interned ids for tag
names and attribute ranges. -/
inductive Tok where
  | char (c : Char)
  | startTag (name attrs : Nat) (selfClosing : Bool)
  | endTag (name : Nat)
  | docType
  | comment
  deriving DecidableEq, Repr

/-- Tokenizer states, src/html/tokenizer.rs `State`. -/
inductive TState where
  | data
  | tagOpen
  | endTagOpen
  | tagName
  | selfClosingStartTag
  | beforeAttributeName
  | attributeName
  | afterAttributeName
  | beforeAttributeValue
  | attributeValueDoubleQuote
  | attributeValueSingleQuote
  | attributeValueNoQuote
  | afterAttributeValueQuoted
  | bogusComment
  | rcData
  | rcDataLessThan
  | rcDataEndTagOpen
  | rcDataEndTagName
  deriving DecidableEq, Repr

/-- ASCII uppercase letter test (`char::is_ascii_uppercase`). -/
def isAsciiUpper (c : Char) : Bool :=
  0x41 ≤ c.toNat && c.toNat ≤ 0x5A

/-- ASCII lowercase letter test (`char::is_ascii_lowercase`). -/
def isAsciiLower (c : Char) : Bool :=
  0x61 ≤ c.toNat && c.toNat ≤ 0x7A

/-- ASCII letter test (`char::is_ascii_alphabetic`; also stands in for the
Unicode `char::is_alphabetic` of `RcDataEndTagOpen`, which coincides with it
on ASCII input). -/
def isAsciiAlpha (c : Char) : Bool :=
  isAsciiUpper c || isAsciiLower c

/-- ASCII lowercasing (`char::to_ascii_lowercase`). -/
def toAsciiLower (c : Char) : Char :=
  if isAsciiUpper c then Char.ofNat (c.toNat + 32) else c

/-- The tag whitespace set `'\t' | '\n' | '\x0C' | ' '` of the tokenizer
match arms (and of the parser's `"\t\n\x0C "` guards). -/
def isTagWs (c : Char) : Bool :=
  c = '\t' || c = '\n' || c = Char.ofNat 12 || c = ' '

/-- The Unicode replacement character U+FFFD. -/
def replacementChar : Char := Char.ofNat 0xFFFD

/-- Tokenizer bookkeeping, src/html/tokenizer.rs `TokenizerInner`. The
synthetic-token stack is a `Vec` pushed and popped at the back; it is kept
here as a list whose last element is the top of the stack. -/
structure TokInner where
  consumed : Nat
  state : TState
  strBuf : List Char
  attrBuf : List (Nat × Nat)
  tempBuffer : List (Location × Char)
  lastStartTagEmittedName : Option Nat
  syntheticToks : List (Location × Tok)
  forceEof : Bool
  tok : Tok
  startLoc : Location
  loc : Location
  deriving DecidableEq, Repr

/-- The fresh tokenizer bookkeeping of `Tokenizer::new`. -/
def TokInner.new : TokInner :=
  { consumed := 0
    state := .data
    strBuf := []
    attrBuf := []
    tempBuffer := []
    lastStartTagEmittedName := none
    syntheticToks := []
    forceEof := false
    tok := .comment
    startLoc := { line := 1, column := 1 }
    loc := { line := 1, column := 0 } }

/-- TokenizerInner::consume from src/html/tokenizer.rs: advance one
normalized character, updating the location (a newline starts a new line)
and adding the character's reported length to the consumed counter. -/
def TokInner.consumeChar (i : TokInner) (stream : List (Nat × Char)) :
    TokInner × List (Nat × Char) :=
  match stream with
  | [] => (i, [])
  | (len, c) :: rest =>
    if c = '\n' then
      ({ i with loc := { line := i.loc.line + 1, column := 1 },
                consumed := i.consumed + len }, rest)
    else
      ({ i with loc := { i.loc with column := i.loc.column + 1 },
                consumed := i.consumed + len }, rest)

/-- TokenizerInner::set_tag_name_if_unset from src/html/tokenizer.rs: intern
the accumulated name buffer into the running tag token if its name id is
still the empty sentinel. -/
def setTagNameIfUnset (d : Dom) (i : TokInner) : Dom × TokInner :=
  match i.tok with
  | .startTag name attrs sc =>
    if name = emptyRangeIndex then
      let (d2, name2) := d.insertStr i.strBuf
      (d2, { i with tok := .startTag name2 attrs sc })
    else (d, i)
  | .endTag name =>
    if name = emptyRangeIndex then
      let (d2, name2) := d.insertStr i.strBuf
      (d2, { i with tok := .endTag name2 })
    else (d, i)
  | _ => (d, i)

/-- TokenizerInner::set_tag_attrs_if_unset from src/html/tokenizer.rs:
intern the accumulated attribute buffer into a start tag whose attrs id is
still the empty sentinel. -/
def setTagAttrsIfUnset (d : Dom) (i : TokInner) : Dom × TokInner :=
  match i.tok with
  | .startTag name attrs sc =>
    if attrs = emptyRangeIndex then
      let (d2, attrs2) := d.insertAttrs i.attrBuf
      (d2, { i with tok := .startTag name attrs2 sc })
    else (d, i)
  | _ => (d, i)

/-- Replace the last entry of the attribute buffer
(`self.attr_buf.last_mut().unwrap()`); `none` is the unwrap panic on an
empty buffer. -/
def updateLast (l : List (Nat × Nat)) (f : (Nat × Nat) → Nat × Nat) :
    Option (List (Nat × Nat)) :=
  match l.getLast? with
  | none => none
  | some p => some (l.dropLast ++ [f p])

/-- Result of one `TokenizerInner::next` call: a pending return, an emitted
token, end of input (`Poll::Ready(None)`), or a `todo!`/`unreachable!`/panic
path. -/
inductive InnerRes where
  | pending (d : Dom) (i : TokInner)
  | tok (lt : Location × Tok) (d : Dom) (i : TokInner)
  | eof (d : Dom) (i : TokInner)
  | diverge
  deriving Repr

/-- The synthetic re-emission of the `RcDataEndTagName` failure arms of
src/html/tokenizer.rs: push the buffered characters in reverse order and a
`'/'` onto the synthetic-token stack, clear the buffer and return to
`RcData`. -/
def rcDataFail (i : TokInner) : TokInner :=
  { i with
    syntheticToks := i.syntheticToks
      ++ (i.tempBuffer.reverse.map fun p => (p.1, Tok.char p.2))
      ++ [(i.loc, Tok.char '/')]
    tempBuffer := []
    state := .rcData }

/-- TokenizerInner::next from src/html/tokenizer.rs: the tokenization state
machine over the newline-normalized character stream of the current buffer.
`ne` records whether that buffer is nonempty (the source's
`!input.is_empty()`); the fuel bounds the internal loop and is always ample
for the callers in this file. -/
def innerNext : Nat → Dom → TokInner → List (Nat × Char) → Bool → InnerRes
  | 0, _, _, _, _ => .diverge
  | fuel + 1, d, i, stream, ne =>
    let c := stream.head?.map (·.2)
    if c.isNone && ne then .pending d i
    else
      match i.state with
      | .data =>
        match c with
        | some '&' => .diverge
        | some '<' =>
          let (i2, s2) := i.consumeChar stream
          innerNext fuel d { i2 with state := .tagOpen, startLoc := i2.loc } s2 ne
        | some c0 =>
          if c0 = Char.ofNat 0 then
            let (i2, _) := i.consumeChar stream
            .tok (i2.loc, .char (Char.ofNat 0)) d i2
          else
            let (i2, _) := i.consumeChar stream
            .tok (i2.loc, .char c0) d i2
        | none => .eof d i
      | .tagOpen =>
        match c with
        | some '!' => .diverge
        | some '/' =>
          let (i2, s2) := i.consumeChar stream
          innerNext fuel d { i2 with state := .endTagOpen } s2 ne
        | some '?' =>
          innerNext fuel d { i with state := .bogusComment } stream ne
        | some c0 =>
          if isAsciiAlpha c0 then
            innerNext fuel d
              { i with strBuf := [],
                       tok := .startTag emptyRangeIndex emptyRangeIndex false,
                       state := .tagName } stream ne
          else
            .tok (i.loc, .char '<') d { i with state := .data }
        | none =>
          .tok (i.loc, .char '<') d { i with forceEof := true }
      | .endTagOpen =>
        match c with
        | some '>' =>
          let (i2, s2) := i.consumeChar stream
          innerNext fuel d { i2 with state := .data } s2 ne
        | some c0 =>
          if isAsciiAlpha c0 then
            innerNext fuel d
              { i with strBuf := [], tok := .endTag emptyRangeIndex,
                       state := .tagName } stream ne
          else
            innerNext fuel d { i with state := .bogusComment } stream ne
        | none =>
          .tok (i.startLoc, .char '<') d
            { i with forceEof := true,
                     syntheticToks := i.syntheticToks ++ [(i.loc, Tok.char '/')] }
      | .tagName =>
        match c with
        | some c0 =>
          if isTagWs c0 then
            let (i2, s2) := i.consumeChar stream
            let (d2, i3) := setTagNameIfUnset d { i2 with state := .beforeAttributeName }
            innerNext fuel d2 i3 s2 ne
          else if c0 = '/' then
            let (i2, s2) := i.consumeChar stream
            innerNext fuel d { i2 with state := .selfClosingStartTag } s2 ne
          else if c0 = '>' then
            let (i2, _) := i.consumeChar stream
            let (d2, i3) := setTagNameIfUnset d { i2 with state := .data }
            let (d3, i4) := setTagAttrsIfUnset d2 i3
            .tok (i4.startLoc, i4.tok) d3 { i4 with attrBuf := [] }
          else if isAsciiUpper c0 then
            let (i2, s2) := i.consumeChar stream
            innerNext fuel d { i2 with strBuf := i2.strBuf ++ [toAsciiLower c0] } s2 ne
          else if c0 = Char.ofNat 0 then
            let (i2, s2) := i.consumeChar stream
            innerNext fuel d { i2 with strBuf := i2.strBuf ++ [replacementChar] } s2 ne
          else
            let (i2, s2) := i.consumeChar stream
            innerNext fuel d { i2 with strBuf := i2.strBuf ++ [c0] } s2 ne
        | none => .eof d i
      | .beforeAttributeName =>
        match c with
        | some c0 =>
          if isTagWs c0 then
            let (i2, s2) := i.consumeChar stream
            innerNext fuel d i2 s2 ne
          else if c0 = '/' || c0 = '>' then
            innerNext fuel d { i with state := .afterAttributeName } stream ne
          else if c0 = '=' then
            let (i2, s2) := i.consumeChar stream
            innerNext fuel d
              { i2 with strBuf := ['='],
                        attrBuf := i2.attrBuf ++ [(emptyRangeIndex, emptyRangeIndex)],
                        state := .attributeName } s2 ne
          else
            innerNext fuel d
              { i with strBuf := [],
                       attrBuf := i.attrBuf ++ [(emptyRangeIndex, emptyRangeIndex)],
                       state := .attributeName } stream ne
        | none =>
          innerNext fuel d { i with state := .afterAttributeName } stream ne
      | .attributeName =>
        match c with
        | some c0 =>
          if isTagWs c0 || c0 = '/' || c0 = '>' then
            let (d2, name) := d.insertStr i.strBuf
            match updateLast i.attrBuf fun p => (name, p.2) with
            | none => .diverge
            | some ab =>
              innerNext fuel d2 { i with attrBuf := ab, state := .afterAttributeName }
                stream ne
          else if c0 = '=' then
            let (i2, s2) := i.consumeChar stream
            let (d2, name) := d.insertStr i2.strBuf
            match updateLast i2.attrBuf fun p => (name, p.2) with
            | none => .diverge
            | some ab =>
              innerNext fuel d2 { i2 with attrBuf := ab, state := .beforeAttributeValue }
                s2 ne
          else if isAsciiUpper c0 then
            let (i2, s2) := i.consumeChar stream
            innerNext fuel d { i2 with strBuf := i2.strBuf ++ [toAsciiLower c0] } s2 ne
          else if c0 = Char.ofNat 0 then
            innerNext fuel d { i with state := .beforeAttributeValue } stream ne
          else
            let (i2, s2) := i.consumeChar stream
            innerNext fuel d { i2 with strBuf := i2.strBuf ++ [c0] } s2 ne
        | none =>
          let (d2, name) := d.insertStr i.strBuf
          match updateLast i.attrBuf fun p => (name, p.2) with
          | none => .diverge
          | some ab =>
            innerNext fuel d2 { i with attrBuf := ab, state := .afterAttributeName }
              stream ne
      | .afterAttributeName =>
        match c with
        | some c0 =>
          if isTagWs c0 then
            let (i2, s2) := i.consumeChar stream
            innerNext fuel d i2 s2 ne
          else if c0 = '/' then
            let (i2, s2) := i.consumeChar stream
            innerNext fuel d { i2 with state := .selfClosingStartTag } s2 ne
          else if c0 = '=' then
            let (i2, s2) := i.consumeChar stream
            innerNext fuel d { i2 with state := .beforeAttributeValue } s2 ne
          else if c0 = '>' then
            let (i2, s2) := i.consumeChar stream
            innerNext fuel d { i2 with state := .data } s2 ne
          else
            innerNext fuel d
              { i with strBuf := [],
                       attrBuf := i.attrBuf ++ [(emptyRangeIndex, emptyRangeIndex)] }
              stream ne
        | none => .eof d i
      | .beforeAttributeValue =>
        match c with
        | some c0 =>
          if isTagWs c0 then
            let (i2, s2) := i.consumeChar stream
            innerNext fuel d i2 s2 ne
          else if c0 = '"' then
            let (i2, s2) := i.consumeChar stream
            innerNext fuel d { i2 with strBuf := [], state := .attributeValueDoubleQuote }
              s2 ne
          else if c0 = Char.ofNat 39 then
            let (i2, s2) := i.consumeChar stream
            innerNext fuel d { i2 with strBuf := [], state := .attributeValueSingleQuote }
              s2 ne
          else if c0 = '>' then
            let (i2, _) := i.consumeChar stream
            let (d2, i3) := setTagAttrsIfUnset d i2
            .tok (i3.startLoc, i3.tok) d2 { i3 with attrBuf := [], state := .data }
          else
            innerNext fuel d { i with state := .attributeValueNoQuote, strBuf := [] }
              stream ne
        | none =>
          innerNext fuel d { i with state := .attributeValueNoQuote, strBuf := [] }
            stream ne
      | .attributeValueDoubleQuote =>
        match c with
        | some c0 =>
          if c0 = '"' then
            let (i2, s2) := i.consumeChar stream
            let (d2, value) := d.insertStr i2.strBuf
            match updateLast i2.attrBuf fun p => (p.1, value) with
            | none => .diverge
            | some ab =>
              innerNext fuel d2 { i2 with attrBuf := ab, state := .afterAttributeValueQuoted }
                s2 ne
          else if c0 = '&' then .diverge
          else if c0 = Char.ofNat 0 then
            let (i2, s2) := i.consumeChar stream
            innerNext fuel d { i2 with strBuf := i2.strBuf ++ [replacementChar] } s2 ne
          else
            let (i2, s2) := i.consumeChar stream
            innerNext fuel d { i2 with strBuf := i2.strBuf ++ [c0] } s2 ne
        | none => .eof d i
      | .attributeValueSingleQuote =>
        match c with
        | some c0 =>
          if c0 = Char.ofNat 39 then
            let (i2, s2) := i.consumeChar stream
            let (d2, value) := d.insertStr i2.strBuf
            match updateLast i2.attrBuf fun p => (p.1, value) with
            | none => .diverge
            | some ab =>
              innerNext fuel d2 { i2 with attrBuf := ab, state := .afterAttributeValueQuoted }
                s2 ne
          else if c0 = '&' then .diverge
          else if c0 = Char.ofNat 0 then
            let (i2, s2) := i.consumeChar stream
            innerNext fuel d { i2 with strBuf := i2.strBuf ++ [replacementChar] } s2 ne
          else
            let (i2, s2) := i.consumeChar stream
            innerNext fuel d { i2 with strBuf := i2.strBuf ++ [c0] } s2 ne
        | none => .eof d i
      | .attributeValueNoQuote =>
        match c with
        | some c0 =>
          if isTagWs c0 then
            let (i2, s2) := i.consumeChar stream
            let (d2, value) := d.insertStr i2.strBuf
            match updateLast i2.attrBuf fun p => (p.1, value) with
            | none => .diverge
            | some ab =>
              innerNext fuel d2 { i2 with attrBuf := ab, state := .beforeAttributeName }
                s2 ne
          else if c0 = '&' then .diverge
          else if c0 = '>' then
            let (i2, _) := i.consumeChar stream
            let (d2, value) := d.insertStr i2.strBuf
            match updateLast i2.attrBuf fun p => (p.1, value) with
            | none => .diverge
            | some ab =>
              let (d3, i3) := setTagAttrsIfUnset d2 { i2 with attrBuf := ab }
              .tok (i3.startLoc, i3.tok) d3 { i3 with attrBuf := [], state := .data }
          else if c0 = Char.ofNat 0 then
            let (i2, s2) := i.consumeChar stream
            innerNext fuel d { i2 with strBuf := i2.strBuf ++ [replacementChar] } s2 ne
          else if c0 = '"' || c0 = Char.ofNat 39 || c0 = '<' || c0 = '='
              || c0 = Char.ofNat 96 then
            let (i2, s2) := i.consumeChar stream
            innerNext fuel d { i2 with strBuf := i2.strBuf ++ [c0] } s2 ne
          else
            let (i2, s2) := i.consumeChar stream
            innerNext fuel d { i2 with strBuf := i2.strBuf ++ [c0] } s2 ne
        | none => .eof d i
      | .afterAttributeValueQuoted =>
        match c with
        | some c0 =>
          if isTagWs c0 then
            let (i2, s2) := i.consumeChar stream
            innerNext fuel d { i2 with state := .beforeAttributeName } s2 ne
          else if c0 = '/' then
            let (i2, s2) := i.consumeChar stream
            innerNext fuel d { i2 with state := .selfClosingStartTag } s2 ne
          else if c0 = '>' then
            let (i2, _) := i.consumeChar stream
            let (d2, i3) := setTagAttrsIfUnset d { i2 with state := .data }
            .tok (i3.startLoc, i3.tok) d2 { i3 with attrBuf := [] }
          else
            innerNext fuel d { i with state := .beforeAttributeName } stream ne
        | none => .eof d i
      | .selfClosingStartTag =>
        match c with
        | some c0 =>
          if c0 = '>' then
            let (i2, _) := i.consumeChar stream
            let (d2, i3) := setTagNameIfUnset d i2
            let (d3, i4) := setTagAttrsIfUnset d2 i3
            match i4.tok with
            | .startTag name attrs _ =>
              .tok (i4.startLoc, .startTag name attrs true) d3
                { i4 with attrBuf := [], state := .data }
            | _ => .diverge
          else
            innerNext fuel d { i with state := .beforeAttributeName } stream ne
        | none => .eof d i
      | .bogusComment => .diverge
      | .rcData =>
        match c with
        | some '&' => .diverge
        | some '<' =>
          let (i2, s2) := i.consumeChar stream
          innerNext fuel d { i2 with startLoc := i2.loc, state := .rcDataLessThan } s2 ne
        | some c0 =>
          if c0 = Char.ofNat 0 then
            let (i2, _) := i.consumeChar stream
            .tok (i2.loc, .char replacementChar) d i2
          else
            let (i2, _) := i.consumeChar stream
            .tok (i2.loc, .char c0) d i2
        | none => .eof d i
      | .rcDataLessThan =>
        match c with
        | some '/' =>
          let (i2, s2) := i.consumeChar stream
          innerNext fuel d { i2 with tempBuffer := [], state := .rcDataEndTagOpen } s2 ne
        | _ =>
          .tok (i.startLoc, .char '<') d { i with state := .rcData }
      | .rcDataEndTagOpen =>
        match c with
        | some c0 =>
          if isAsciiAlpha c0 then
            innerNext fuel d
              { i with strBuf := [], tok := .endTag emptyRangeIndex,
                       state := .rcDataEndTagName } stream ne
          else
            .tok (i.startLoc, .char '<') d
              { i with syntheticToks := i.syntheticToks ++ [(i.loc, Tok.char '/')],
                       state := .rcData }
        | none =>
          .tok (i.startLoc, .char '<') d
            { i with syntheticToks := i.syntheticToks ++ [(i.loc, Tok.char '/')],
                     state := .rcData }
      | .rcDataEndTagName =>
        match c with
        | some c0 =>
          if isTagWs c0 then
            let (d2, i2) := setTagNameIfUnset d i
            match i2.tok with
            | .endTag nm =>
              if i2.lastStartTagEmittedName = some nm then
                let (i3, _) := i2.consumeChar stream
                .pending d2 { i3 with state := .beforeAttributeName }
              else
                .tok (i2.startLoc, .char '<') d2 (rcDataFail i2)
            | _ => .tok (i2.startLoc, .char '<') d2 (rcDataFail i2)
          else if c0 = '/' then
            let (d2, i2) := setTagNameIfUnset d i
            match i2.tok with
            | .endTag nm =>
              if i2.lastStartTagEmittedName = some nm then
                let (i3, _) := i2.consumeChar stream
                .pending d2 { i3 with state := .selfClosingStartTag }
              else
                .tok (i2.startLoc, .char '<') d2 (rcDataFail i2)
            | _ => .tok (i2.startLoc, .char '<') d2 (rcDataFail i2)
          else if c0 = '>' then
            let (d2, i2) := setTagNameIfUnset d i
            match i2.tok with
            | .endTag nm =>
              if i2.lastStartTagEmittedName = some nm then
                let (i3, _) := i2.consumeChar stream
                .tok (i3.startLoc, i3.tok) d2 { i3 with state := .data }
              else
                .tok (i2.startLoc, .char '<') d2 (rcDataFail i2)
            | _ => .tok (i2.startLoc, .char '<') d2 (rcDataFail i2)
          else if isAsciiUpper c0 then
            let (i2, s2) := i.consumeChar stream
            innerNext fuel d
              { i2 with strBuf := i2.strBuf ++ [toAsciiLower c0],
                        tempBuffer := i2.tempBuffer ++ [(i2.loc, c0)] } s2 ne
          else if isAsciiLower c0 then
            let (i2, s2) := i.consumeChar stream
            innerNext fuel d
              { i2 with strBuf := i2.strBuf ++ [c0],
                        tempBuffer := i2.tempBuffer ++ [(i2.loc, c0)] } s2 ne
          else
            .tok (i.startLoc, .char '<') d (rcDataFail i)
        | none =>
          .tok (i.startLoc, .char '<') d (rcDataFail i)

/-- The tokenizer with its reader, src/html/tokenizer.rs `Tokenizer`. The
reader is modelled as the remaining raw characters of the input (the byte
source always has the full rest of the stream buffered; an empty remainder
is end of input). `reader.consume` drops raw characters; the source consumes
that many bytes, which coincides on files whose characters are single-byte
(the byte-versus-character discrepancy for multibyte input is claim C1). -/
structure Tokenizer where
  inner : TokInner
  remaining : List Char
  deriving DecidableEq, Repr

/-- Tokenizer::new from src/html/tokenizer.rs, over a given input. -/
def Tokenizer.new (input : List Char) : Tokenizer :=
  { inner := TokInner.new, remaining := input }

/-- Result of one `Tokenizer::poll_next` call. -/
inductive PollRes where
  | emit (lt : Location × Tok) (d : Dom) (tk : Tokenizer)
  | pending (d : Dom) (tk : Tokenizer)
  | done (d : Dom) (tk : Tokenizer)
  | diverge
  deriving Repr

/-- Fuel that is always sufficient for one `TokenizerInner::next` call on the
tokenizer's buffer: every loop iteration either consumes a character or moves
through one of the finitely many non-consuming state hops. -/
def innerFuelFor (tk : Tokenizer) : Nat :=
  4 * tk.remaining.length + 16

/-- Tokenizer::poll_next from src/html/tokenizer.rs: drain the
synthetic-token stack first (recording a popped start tag as the last start
tag emitted), then honor the forced EOF flag, and only then read input and
run the state machine, consuming the reported characters from the reader. -/
def pollNext (d : Dom) (tk : Tokenizer) : PollRes :=
  match tk.inner.syntheticToks.getLast? with
  | some lt =>
    let inner2 := { tk.inner with syntheticToks := tk.inner.syntheticToks.dropLast }
    let inner3 :=
      match lt.2 with
      | .startTag name _ _ => { inner2 with lastStartTagEmittedName := some name }
      | _ => inner2
    .emit lt d { tk with inner := inner3 }
  | none =>
    if tk.inner.forceEof then .done d tk
    else
      let input := tk.remaining
      match innerNext (innerFuelFor tk) d tk.inner (newlineNormalized input)
          (!input.isEmpty) with
      | .tok lt d2 i2 =>
        let i3 := { i2 with consumed := 0 }
        let i4 :=
          match lt.2 with
          | .startTag name _ _ => { i3 with lastStartTagEmittedName := some name }
          | _ => i3
        .emit lt d2 { inner := i4, remaining := input.drop i2.consumed }
      | .pending d2 i2 =>
        .pending d2 { inner := { i2 with consumed := 0 },
                      remaining := input.drop i2.consumed }
      | .eof d2 i2 =>
        .done d2 { inner := { i2 with consumed := 0 },
                   remaining := input.drop i2.consumed }
      | .diverge => .diverge

/-- Drive the tokenizer until it reports end of input, collecting the emitted
tokens; `none` on a diverging path or fuel exhaustion. -/
def runTokenizerAux : Nat → Dom → Tokenizer → List (Location × Tok) →
    Option (List (Location × Tok) × Dom × Tokenizer)
  | 0, _, _, _ => none
  | fuel + 1, d, tk, acc =>
    match pollNext d tk with
    | .emit lt d2 tk2 => runTokenizerAux fuel d2 tk2 (acc ++ [lt])
    | .pending d2 tk2 => runTokenizerAux fuel d2 tk2 acc
    | .done d2 tk2 => some (acc, d2, tk2)
    | .diverge => none

/-- Tokenize a whole input against a fresh store. -/
def runTokenizer (input : String) :
    Option (List (Location × Tok) × Dom × Tokenizer) :=
  runTokenizerAux (4 * input.data.length + 16) Dom.new (Tokenizer.new input.data) []

/-- Insertion modes, src/html/parser.rs `InsertionMode`. -/
inductive IMode where
  | initial
  | beforeHtml
  | beforeHead
  | inHead
  | afterHead
  | inBody
  | afterBody
  | afterAfterBody
  | text
  deriving DecidableEq, Repr

/-- Parse events, src/html/parser.rs `ParseEvent` (the fatal payload is not
modelled: the reader model never fails). -/
inductive ParseEvent where
  | done
  | fatal
  | title (id : Nat)
  | link
  | style (id : Nat)
  | iframe
  deriving DecidableEq, Repr

/-- The tree constructor, src/html/parser.rs `Parser`. -/
structure HtmlParser where
  tokenizer : Tokenizer
  insertionMode : IMode
  originalInsertionMode : IMode
  templateInsertionModes : List IMode
  stack : List Nat
  head : Option Nat
  textBuf : List Char
  tokBuf : List (Location × Tok)
  framesetOk : Bool
  skipNextLinefeed : Bool
  deriving DecidableEq, Repr

/-- Parser::new from src/html/parser.rs. -/
def HtmlParser.new (input : List Char) : HtmlParser :=
  { tokenizer := Tokenizer.new input
    insertionMode := .initial
    originalInsertionMode := .initial
    templateInsertionModes := []
    stack := []
    head := none
    textBuf := []
    tokBuf := []
    framesetOk := true
    skipNextLinefeed := false }

/-- Parser::is_str_in from src/html/parser.rs: whether the interned index
equals the (lookup-only) interned id of one of the given strings. -/
def isStrIn (d : Dom) (index : Nat) : List (List Char) → Bool
  | [] => false
  | s :: rest =>
    match d.findStr s with
    | some i => if i = index then true else isStrIn d index rest
    | none => isStrIn d index rest

/-- Parser::append_text from src/html/parser.rs: append the character's
bytes to the text pool; if the current element's last child is a text node,
grow it in place through the scratch `text_buf` and `set_text`, otherwise
start a new text child holding just this character. `none` is an unwrap
panic. -/
def HtmlParser.appendText (p : HtmlParser) (d : Dom) (c : Char) :
    Option (Dom × HtmlParser) :=
  let d1 := d.appendChar c
  match p.stack.getLast? with
  | none => none
  | some top =>
    match d1.getElementNode top with
    | none => none
    | some (_, el) =>
      let tryText : Option (Dom × HtmlParser) :=
        match d1.childIndices el with
        | none => none
        | some (s, e) =>
          if s < e then
            match d1.getNodeIdByIndex (e - 1) with
            | some childId =>
              match d1.getTextNode childId with
              | some (idx, t) =>
                let buf2 := p.textBuf ++ [c]
                let (d2, _) := d1.setTextAt idx t buf2
                some (d2, { p with textBuf := buf2 })
              | none => none
            | none => none
          else none
      match tryText with
      | some r => some r
      | none =>
        let buf2 := [c]
        match d1.getElementNode top with
        | none => none
        | some (idx2, el2) =>
          match d1.appendChildTextAt idx2 el2 buf2 with
          | none => none
          | some (d2, _) => some (d2, { p with textBuf := buf2 })

/-- Inner loop of Parser::stack_contains: does any open element carry the
given interned name (`none` is the per-element unwrap panic). -/
def stackHasName (d : Dom) : List Nat → Nat → Option Bool
  | [], _ => some false
  | e :: rest, name =>
    match d.getElementNode e with
    | none => none
    | some (_, el) =>
      if el.name = name then some true else stackHasName d rest name

/-- Parser::stack_contains from src/html/parser.rs. -/
def HtmlParser.stackContains (p : HtmlParser) (d : Dom) :
    List (List Char) → Option Bool
  | [] => some false
  | s :: rest =>
    match d.findStr s with
    | some name =>
      match stackHasName d p.stack name with
      | none => none
      | some true => some true
      | some false => p.stackContains d rest
    | none => p.stackContains d rest

/-- The barrier names of Parser::is_index_in_scope. -/
def scopeBarriers : List (List Char) :=
  ["html".data, "table".data, "td".data, "th".data, "marquee".data]

/-- The barrier names of Parser::is_in_button_scope. -/
def buttonScopeBarriers : List (List Char) :=
  ["html".data, "table".data, "td".data, "th".data, "marquee".data,
    "button".data]

/-- The stack walk shared by the scope predicates of src/html/parser.rs,
over the open-element ids from the top of the stack down; `none` is the
source's `unreachable!()` at the bottom of the stack (or an unwrap panic). -/
def isInScopeAux (d : Dom) (name : Nat) (barriers : List (List Char)) :
    List Nat → Option Bool
  | [] => none
  | e :: rest =>
    match d.getElementNode e with
    | none => none
    | some (_, el) =>
      if el.name = name then some true
      else if isStrIn d el.name barriers then some false
      else isInScopeAux d name barriers rest

/-- Parser::is_in_scope from src/html/parser.rs (interns the name, so the
store may grow). -/
def HtmlParser.isInScope (p : HtmlParser) (d : Dom) (s : List Char) :
    Option (Dom × Bool) :=
  let (d2, name) := d.insertStr s
  (isInScopeAux d2 name scopeBarriers p.stack.reverse).map fun b => (d2, b)

/-- Parser::is_index_in_scope from src/html/parser.rs. -/
def HtmlParser.isIndexInScope (p : HtmlParser) (d : Dom) (name : Nat) :
    Option Bool :=
  isInScopeAux d name scopeBarriers p.stack.reverse

/-- Parser::is_in_button_scope from src/html/parser.rs. -/
def HtmlParser.isInButtonScope (p : HtmlParser) (d : Dom) (s : List Char) :
    Option (Dom × Bool) :=
  let (d2, name) := d.insertStr s
  (isInScopeAux d2 name buttonScopeBarriers p.stack.reverse).map fun b => (d2, b)

/-- Parser::close_implied_end_elements from src/html/parser.rs: for each
name in order, pop the top of the stack if it carries that name. -/
def HtmlParser.closeImplied (p : HtmlParser) (d : Dom) :
    List (List Char) → Option HtmlParser
  | [] => some p
  | s :: rest =>
    match d.findStr s with
    | none => p.closeImplied d rest
    | some name =>
      match p.stack.getLast? with
      | none => none
      | some top =>
        match d.getElementNode top with
        | none => none
        | some (_, el) =>
          if el.name = name then
            HtmlParser.closeImplied { p with stack := p.stack.dropLast } d rest
          else p.closeImplied d rest

/-- The pop loop of Parser::close_until, over the reversed stack (top
first): pop until, and including, the first element with the given name;
an exhausted stack ends the loop with everything popped. -/
def closeUntilRev (d : Dom) (name : Nat) : List Nat → Option (List Nat)
  | [] => some []
  | top :: rest =>
    match d.getElementNode top with
    | none => none
    | some (_, el) =>
      if el.name = name then some rest else closeUntilRev d name rest

/-- Parser::close_until from src/html/parser.rs. -/
def HtmlParser.closeUntil (p : HtmlParser) (d : Dom) (name : Nat) :
    Option HtmlParser :=
  (closeUntilRev d name p.stack.reverse).map fun rev =>
    { p with stack := rev.reverse }

/-- The pop loop of Parser::close_p: pop until, and including, the first
element named `p`. -/
def closePRev (d : Dom) : List Nat → Option (List Nat)
  | [] => some []
  | top :: rest =>
    match d.getElementNode top with
    | none => none
    | some (_, el) =>
      if isStrIn d el.name ["p".data] then some rest else closePRev d rest

/-- Parser::close_p from src/html/parser.rs. -/
def HtmlParser.closeP (p : HtmlParser) (d : Dom) : Option HtmlParser :=
  match p.closeImplied d
      ["dd".data, "dt".data, "li".data, "optgroup".data, "option".data] with
  | none => none
  | some p2 =>
    (closePRev d p2.stack.reverse).map fun rev => { p2 with stack := rev.reverse }

/-- The block-container start/end tag name set of the `InBody` mode. -/
def blockContainerNames : List (List Char) :=
  ["address".data, "article".data, "aside".data, "blockquote".data,
    "center".data, "details".data, "dialog".data, "dir".data, "div".data,
    "dl".data, "fieldset".data, "figcaption".data, "figure".data,
    "footer".data, "header".data, "hgroup".data, "main".data, "menu".data,
    "nav".data, "ol".data, "p".data, "search".data, "section".data,
    "summary".data, "ul".data]

/-- The heading tag name set of the `InBody` mode. -/
def headingNames : List (List Char) :=
  ["h1".data, "h2".data, "h3".data, "h4".data, "h5".data, "h6".data]

/-- Result of processing one token in the current insertion mode: `next`
breaks out to fetch the next token, `again` reprocesses the same token after
a mode change, `ev` returns a parse event, `diverge` is a `todo!`,
`unreachable!` or unwrap panic path. -/
inductive StepRes where
  | next (d : Dom) (p : HtmlParser)
  | again (d : Dom) (p : HtmlParser)
  | ev (e : ParseEvent) (d : Dom) (p : HtmlParser)
  | diverge
  deriving Repr

/-- The duplicate `<html>` start-tag handling shared by the insertion modes
of src/html/parser.rs: ignore with a template on the stack, otherwise merge
the missing attributes onto the current open element. -/
def mergeAttrsOnTop (d : Dom) (p : HtmlParser) (attrs : Nat) : StepRes :=
  match p.stackContains d ["template".data] with
  | none => .diverge
  | some true => .next d p
  | some false =>
    match p.stack.getLast? with
    | none => .diverge
    | some top =>
      match d.getElementNode top with
      | none => .diverge
      | some (idx, el) =>
        match d.insertMissingAttrsAt idx el attrs with
        | none => .diverge
        | some d2 => .next d2 p

/-- Append a new element child to the current open element and push it,
as the start-tag arms of src/html/parser.rs do. -/
def appendToTop (d : Dom) (p : HtmlParser) (name attrs : Nat) :
    Option (Dom × HtmlParser × Nat) :=
  match p.stack.getLast? with
  | none => none
  | some top =>
    match d.getElementNode top with
    | none => none
    | some (idx, el) =>
      (d.appendChildElementAt idx el name attrs).map fun r =>
        (r.1, { p with stack := p.stack ++ [r.2] }, r.2)

/-- Parser::poll_next's insertion-mode dispatch from src/html/parser.rs: the
body of the inner `loop` for one token in one mode. -/
def parserStep (d : Dom) (p : HtmlParser) (tok : Option Tok) : StepRes :=
  match p.insertionMode with
  | .initial =>
    match tok with
    | some .comment => .next d p
    | some (.char c0) =>
      if isTagWs c0 then .next d p
      else .again d { p with insertionMode := .beforeHtml }
    | some .docType => .diverge
    | _ => .again d { p with insertionMode := .beforeHtml }
  | .beforeHtml =>
    let anythingElse : StepRes :=
      let (d1, html) := d.insertStr "html".data
      match d1.getElementNode rootNodeId with
      | none => .diverge
      | some (idx, root) =>
        match d1.appendChildElementAt idx root html emptyRangeIndex with
        | none => .diverge
        | some (d2, htmlId) =>
          .again d2 { p with stack := p.stack ++ [htmlId],
                             insertionMode := .beforeHead }
    match tok with
    | some .docType => .next d p
    | some .comment => .next d p
    | some (.char c0) => if isTagWs c0 then .next d p else anythingElse
    | some (.startTag name attrs _) =>
      if isStrIn d name ["html".data] then
        match d.getElementNode rootNodeId with
        | none => .diverge
        | some (idx, root) =>
          match d.appendChildElementAt idx root name attrs with
          | none => .diverge
          | some (d2, htmlId) =>
            .next d2 { p with stack := p.stack ++ [htmlId],
                              insertionMode := .beforeHead }
      else anythingElse
    | some (.endTag name) =>
      if !isStrIn d name ["head".data, "body".data, "html".data, "br".data] then
        .next d p
      else anythingElse
    | none => anythingElse
  | .beforeHead =>
    let anythingElse : StepRes :=
      let (d1, headName) := d.insertStr "head".data
      match appendToTop d1 p headName emptyRangeIndex with
      | none => .diverge
      | some (d2, p2, headId) =>
        .again d2 { p2 with head := some headId, insertionMode := .inHead }
    match tok with
    | some .docType => .next d p
    | some .comment => .next d p
    | some (.char c0) => if isTagWs c0 then .next d p else anythingElse
    | some (.startTag name attrs _) =>
      if isStrIn d name ["html".data] then mergeAttrsOnTop d p attrs
      else if isStrIn d name ["head".data] then
        match appendToTop d p name attrs with
        | none => .diverge
        | some (d2, p2, headId) =>
          .next d2 { p2 with head := some headId, insertionMode := .inHead }
      else anythingElse
    | some (.endTag name) =>
      if !isStrIn d name ["head".data, "body".data, "html".data, "br".data] then
        .next d p
      else anythingElse
    | none => anythingElse
  | .inHead =>
    let anythingElse : StepRes :=
      .again d { p with stack := p.stack.dropLast, insertionMode := .afterHead }
    match tok with
    | some (.char c0) =>
      if isTagWs c0 then
        match p.appendText d c0 with
        | none => .diverge
        | some (d2, p2) => .next d2 p2
      else anythingElse
    | some .docType => .next d p
    | some .comment => .next d p
    | some (.startTag name attrs _) =>
      if isStrIn d name ["html".data] then mergeAttrsOnTop d p attrs
      else if isStrIn d name ["base".data, "link".data, "meta".data] then .diverge
      else if isStrIn d name ["title".data] then
        match appendToTop d p name attrs with
        | none => .diverge
        | some (d2, p2, _) =>
          .next d2
            { p2 with
              tokenizer := { p2.tokenizer with
                inner := { p2.tokenizer.inner with state := .rcData } }
              originalInsertionMode := p2.insertionMode
              insertionMode := .text }
      else if isStrIn d name ["noframes".data, "style".data] then .diverge
      else if isStrIn d name ["noscript".data] then .diverge
      else if isStrIn d name ["script".data] then .diverge
      else if isStrIn d name ["template".data] then .diverge
      else if isStrIn d name ["head".data] then .next d p
      else anythingElse
    | some (.endTag name) =>
      if isStrIn d name ["head".data] then
        .next d { p with stack := p.stack.dropLast, insertionMode := .afterHead }
      else if isStrIn d name ["body".data, "html".data, "br".data] then
        .again d { p with stack := p.stack.dropLast, insertionMode := .afterHead }
      else if isStrIn d name ["template".data] then .diverge
      else .next d p
    | none => anythingElse
  | .afterHead =>
    let anythingElse : StepRes :=
      let (d1, bodyName) := d.insertStr "body".data
      match appendToTop d1 p bodyName emptyRangeIndex with
      | none => .diverge
      | some (d2, p2, _) => .again d2 { p2 with insertionMode := .inBody }
    match tok with
    | some (.char c0) =>
      if isTagWs c0 then
        match p.appendText d c0 with
        | none => .diverge
        | some (d2, p2) => .next d2 p2
      else anythingElse
    | some .docType => .next d p
    | some .comment => .next d p
    | some (.startTag name attrs _) =>
      if isStrIn d name ["html".data] then mergeAttrsOnTop d p attrs
      else if isStrIn d name ["body".data] then
        match appendToTop d p name attrs with
        | none => .diverge
        | some (d2, p2, _) => .next d2 { p2 with insertionMode := .inBody }
      else if isStrIn d name
          ["base".data, "link".data, "meta".data, "noframes".data,
            "script".data, "style".data, "template".data, "title".data] then
        .diverge
      else if isStrIn d name ["head".data] then .next d p
      else anythingElse
    | some (.endTag name) =>
      if isStrIn d name ["template".data] then .diverge
      else if isStrIn d name ["body".data, "html".data, "br".data] then
        let (d1, bodyName) := d.insertStr "body".data
        match appendToTop d1 p bodyName emptyRangeIndex with
        | none => .diverge
        | some (d2, p2, _) => .again d2 { p2 with insertionMode := .inBody }
      else .next d p
    | none => anythingElse
  | .inBody =>
    match tok with
    | some (.char c0) =>
      if isTagWs c0 then
        match p.appendText d c0 with
        | none => .diverge
        | some (d2, p2) => .next d2 p2
      else
        match p.appendText d c0 with
        | none => .diverge
        | some (d2, p2) => .next d2 { p2 with framesetOk := false }
    | some .docType => .next d p
    | some .comment => .next d p
    | some (.startTag name attrs _) =>
      if isStrIn d name ["html".data] then mergeAttrsOnTop d p attrs
      else if isStrIn d name
          ["base".data, "link".data, "meta".data, "noframes".data,
            "script".data, "style".data, "template".data, "title".data] then
        .diverge
      else if isStrIn d name ["body".data] then
        match p.stackContains d ["template".data] with
        | none => .diverge
        | some tmpl =>
          if p.stack.length = 1 || tmpl then .next d p
          else
            match p.stack.get? 1 with
            | none => .diverge
            | some second =>
              match d.getElementNode second with
              | none => .diverge
              | some (idx, el) =>
                if el.name ≠ name then .next d p
                else
                  match d.insertMissingAttrsAt idx el attrs with
                  | none => .diverge
                  | some d2 => .next d2 { p with framesetOk := false }
      else if isStrIn d name ["frameset".data] then .diverge
      else if isStrIn d name blockContainerNames then
        match p.isInButtonScope d "p".data with
        | none => .diverge
        | some (d1, inScope) =>
          let pOpt := if inScope then p.closeP d1 else some p
          match pOpt with
          | none => .diverge
          | some p1 =>
            match appendToTop d1 p1 name attrs with
            | none => .diverge
            | some (d2, p2, _) => .next d2 p2
      else if isStrIn d name headingNames then
        match p.isInButtonScope d "p".data with
        | none => .diverge
        | some (d1, inScope) =>
          let pOpt := if inScope then p.closeP d1 else some p
          match pOpt with
          | none => .diverge
          | some p1 =>
            match p1.stack.getLast? with
            | none => .diverge
            | some top =>
              match d1.getElementNode top with
              | none => .diverge
              | some (_, el) =>
                let p2 :=
                  if isStrIn d1 el.name headingNames then
                    { p1 with stack := p1.stack.dropLast }
                  else p1
                match appendToTop d1 p2 name attrs with
                | none => .diverge
                | some (d2, p3, _) => .next d2 p3
      else if isStrIn d name ["pre".data, "listing".data] then
        match p.isInButtonScope d "p".data with
        | none => .diverge
        | some (d1, inScope) =>
          let pOpt := if inScope then p.closeP d1 else some p
          match pOpt with
          | none => .diverge
          | some p1 =>
            match appendToTop d1 p1 name attrs with
            | none => .diverge
            | some (d2, p2, _) =>
              .next d2 { p2 with framesetOk := false, skipNextLinefeed := true }
      else if isStrIn d name ["form".data] then .diverge
      else if isStrIn d name ["li".data] then .diverge
      else if isStrIn d name ["dd".data, "dt".data] then .diverge
      else if isStrIn d name ["plaintext".data] then .diverge
      else if isStrIn d name ["button".data] then .diverge
      else if isStrIn d name ["a".data] then .diverge
      else if isStrIn d name
          ["b".data, "big".data, "code".data, "em".data, "font".data,
            "i".data, "s".data, "small".data, "strike".data, "strong".data,
            "tt".data, "u".data] then
        .diverge
      else if isStrIn d name ["nobr".data] then .diverge
      else if isStrIn d name ["applet".data, "marquee".data, "object".data] then
        .diverge
      else if isStrIn d name ["table".data] then .diverge
      else if isStrIn d name
          ["area".data, "br".data, "embed".data, "img".data, "keygen".data,
            "wbr".data] then
        .diverge
      else if isStrIn d name ["input".data] then .diverge
      else if isStrIn d name ["param".data, "source".data, "track".data] then
        .diverge
      else if isStrIn d name ["hr".data] then .diverge
      else if isStrIn d name ["image".data] then .diverge
      else if isStrIn d name ["textarea".data] then .diverge
      else if isStrIn d name ["iframe".data] then .diverge
      else if isStrIn d name ["noembed".data] then .diverge
      else if isStrIn d name ["noscript".data] then .diverge
      else if isStrIn d name ["select".data] then .diverge
      else if isStrIn d name ["optgroup".data, "option".data] then .diverge
      else if isStrIn d name
          ["caption".data, "col".data, "colgroup".data, "frame".data,
            "head".data, "tbody".data, "td".data, "tfoot".data, "th".data,
            "thead".data, "tr".data] then
        .next d p
      else
        match appendToTop d p name attrs with
        | none => .diverge
        | some (d2, p2, _) => .next d2 p2
    | some (.endTag name) =>
      if isStrIn d name ["template".data] then .diverge
      else if isStrIn d name ["body".data] then
        match p.isInScope d "body".data with
        | none => .diverge
        | some (d1, inScope) =>
          if !inScope then .next d1 p
          else .next d1 { p with insertionMode := .afterBody }
      else if isStrIn d name ["html".data] then
        match p.isInScope d "body".data with
        | none => .diverge
        | some (d1, inScope) =>
          if !inScope then .next d1 p
          else .again d1 { p with insertionMode := .afterBody }
      else if isStrIn d name blockContainerNames then
        match p.isIndexInScope d name with
        | none => .diverge
        | some inScope =>
          if !inScope then .next d p
          else
            match p.closeImplied d
                ["dd".data, "dt".data, "li".data, "optgroup".data,
                  "option".data, "p".data] with
            | none => .diverge
            | some p1 =>
              match p1.closeUntil d name with
              | none => .diverge
              | some p2 => .next d p2
      else if isStrIn d name ["form".data] then .diverge
      else if isStrIn d name ["p".data] then .diverge
      else if isStrIn d name ["li".data] then .diverge
      else if isStrIn d name ["dd".data, "dt".data] then .diverge
      else if isStrIn d name headingNames then .diverge
      else if isStrIn d name
          ["a".data, "b".data, "big".data, "code".data, "em".data,
            "font".data, "i".data, "nobr".data, "s".data, "small".data,
            "strike".data, "strong".data, "tt".data, "u".data] then
        .diverge
      else if isStrIn d name ["applet".data, "marquee".data, "object".data] then
        .diverge
      else if isStrIn d name ["br".data] then .diverge
      else .diverge
    | none =>
      if !p.templateInsertionModes.isEmpty then .diverge
      else .ev .done d { p with stack := [] }
  | .afterBody =>
    match tok with
    | some (.char c0) =>
      if isTagWs c0 then
        match p.appendText d c0 with
        | none => .diverge
        | some (d2, p2) => .next d2 p2
      else .again d { p with insertionMode := .inBody }
    | some .docType => .next d p
    | some .comment => .next d p
    | some (.startTag name attrs _) =>
      if isStrIn d name ["html".data] then mergeAttrsOnTop d p attrs
      else .again d { p with insertionMode := .inBody }
    | some (.endTag name) =>
      if isStrIn d name ["html".data] then
        .next d { p with insertionMode := .afterAfterBody }
      else .again d { p with insertionMode := .inBody }
    | none => .ev .done d { p with stack := [] }
  | .afterAfterBody =>
    match tok with
    | some (.char c0) =>
      if isTagWs c0 then
        match p.appendText d c0 with
        | none => .diverge
        | some (d2, p2) => .next d2 p2
      else .again d { p with insertionMode := .inBody }
    | some .docType => .next d p
    | some .comment => .next d p
    | some (.startTag name attrs _) =>
      if isStrIn d name ["html".data] then mergeAttrsOnTop d p attrs
      else .again d { p with insertionMode := .inBody }
    | none => .ev .done d { p with stack := [] }
    | _ => .again d { p with insertionMode := .inBody }
  | .text =>
    match tok with
    | some (.char c0) =>
      match p.appendText d c0 with
      | none => .diverge
      | some (d2, p2) => .next d2 p2
    | some (.endTag name) =>
      if isStrIn d name ["script".data] then
        .again d { p with stack := p.stack.dropLast,
                          insertionMode := p.originalInsertionMode }
      else
        match p.stack.getLast? with
        | none => .diverge
        | some top =>
          let p2 := { p with stack := p.stack.dropLast,
                             insertionMode := p.originalInsertionMode }
          match d.getElementNode top with
          | none => .diverge
          | some (_, el) =>
            if isStrIn d el.name ["title".data] then .ev (.title top) d p2
            else if isStrIn d el.name ["style".data] then .ev (.style top) d p2
            else .again d p2
    | none =>
      match p.stack.getLast? with
      | none => .diverge
      | some top =>
        let p2 := { p with stack := p.stack.dropLast,
                           insertionMode := p.originalInsertionMode }
        match d.getElementNode top with
        | none => .diverge
        | some (_, el) =>
          if isStrIn d el.name ["title".data] then .ev (.title top) d p2
          else if isStrIn d el.name ["style".data] then .ev (.style top) d p2
          else .again d p2
    | _ => .diverge

/-- Result of the inner mode loop of Parser::poll_next: `fetch` breaks out
to fetch the next token, `ev` returns an event. -/
inductive ILRes where
  | fetch (d : Dom) (p : HtmlParser)
  | ev (e : ParseEvent) (d : Dom) (p : HtmlParser)
  | diverge
  deriving Repr

/-- The inner `loop` of Parser::poll_next: redispatch the same token until
some arm breaks (to fetch the next token) or returns an event. -/
def parserModeLoop : Nat → Dom → HtmlParser → Option Tok → ILRes
  | 0, _, _, _ => .diverge
  | fuel + 1, d, p, tok =>
    match parserStep d p tok with
    | .next d2 p2 => .fetch d2 p2
    | .again d2 p2 => parserModeLoop fuel d2 p2 tok
    | .ev e d2 p2 => .ev e d2 p2
    | .diverge => .diverge

/-- Result of one Parser::poll_next call. -/
inductive PRes where
  | ev (e : ParseEvent) (d : Dom) (p : HtmlParser)
  | pending (d : Dom) (p : HtmlParser)
  | diverge
  deriving Repr

/-- Parser::poll_next from src/html/parser.rs: fetch a token (from the
token buffer, else from the tokenizer), silently drop a linefeed while
`skip_next_linefeed` is set (clearing the flag only in that case, as the
source does), and run the insertion-mode loop. -/
def parserPollNext : Nat → Dom → HtmlParser → PRes
  | 0, _, _ => .diverge
  | fuel + 1, d, p =>
    let fetched : Option (Option Tok × Dom × HtmlParser) ⊕ (Dom × HtmlParser) :=
      match p.tokBuf.getLast? with
      | some lt => .inl (some (some lt.2, d, { p with tokBuf := p.tokBuf.dropLast }))
      | none =>
        match pollNext d p.tokenizer with
        | .emit lt d2 tk2 => .inl (some (some lt.2, d2, { p with tokenizer := tk2 }))
        | .done d2 tk2 => .inl (some (none, d2, { p with tokenizer := tk2 }))
        | .pending d2 tk2 => .inr (d2, { p with tokenizer := tk2 })
        | .diverge => .inl none
    match fetched with
    | .inr (d2, p2) => .pending d2 p2
    | .inl none => .diverge
    | .inl (some (tok, d2, p2)) =>
      if p2.skipNextLinefeed ∧ tok = some (.char '\n') then
        parserPollNext fuel d2 { p2 with skipNextLinefeed := false }
      else
        match parserModeLoop 16 d2 p2 tok with
        | .fetch d3 p3 => parserPollNext fuel d3 p3
        | .ev e d3 p3 => .ev e d3 p3
        | .diverge => .diverge

/-- Drive the parser until the `Done` event, collecting the events;
`none` on a diverging path or fuel exhaustion. -/
def runParserAux : Nat → Dom → HtmlParser →
    List ParseEvent → Option (List ParseEvent × Dom × HtmlParser)
  | 0, _, _, _ => none
  | fuel + 1, d, p, acc =>
    match parserPollNext (fuel + 8) d p with
    | .ev .done d2 p2 => some (acc ++ [.done], d2, p2)
    | .ev e d2 p2 => runParserAux fuel d2 p2 (acc ++ [e])
    | .pending d2 p2 => runParserAux fuel d2 p2 acc
    | .diverge => none

/-- Parse a whole input against a fresh store, as the driver in
src/main.rs does. -/
def runParse (input : String) :
    Option (List ParseEvent × Dom × HtmlParser) :=
  runParserAux (input.data.length + 16) Dom.new (HtmlParser.new input.data) []

/-- Ids of the child nodes of the element with the given stable id. -/
def Dom.kidIdsOf (d : Dom) (id : Nat) : Option (List Nat) :=
  match d.getElementNode id with
  | none => none
  | some (_, el) =>
    match d.childIndices el with
    | none => none
    | some (s, e) =>
      if s ≤ e ∧ e ≤ d.nodes.length then
        some (((d.nodes.drop s).take (e - s)).map Node.id)
      else none

/-- Name bytes of the element with the given stable id. -/
def Dom.nameBytesOf (d : Dom) (id : Nat) : Option (List Nat) :=
  match d.getElementNode id with
  | none => none
  | some (_, el) => d.getTextBytes el.name

/-- Content bytes of the text node with the given stable id. -/
def Dom.textBytesOf (d : Dom) (id : Nat) : Option (List Nat) :=
  match d.getTextNode id with
  | none => none
  | some (_, t) =>
    if t.start ≤ t.stop ∧ t.stop ≤ d.text.length then
      some ((d.text.drop t.start).take (t.stop - t.start))
    else none

/-- First value bound to an attribute name in an attribute pair list. -/
def lookupAttr : List (Nat × Nat) → Nat → Option Nat
  | [], _ => none
  | q :: rest, nm => if q.1 = nm then some q.2 else lookupAttr rest nm

/-- C1: the claim says every non-CR character is passed through with
`bytes_consumed = len_utf8(c)`, so a multibyte character reports its UTF-8
byte length rather than 1. The code returns 1 for every non-CR character:
on the two-byte character U+00E9 the normalizer emits `(1, U+00E9)` although
`len_utf8` is 2 (while the CR LF and lone-CR clauses do hold). -/
theorem newline_normalized_multibyte_reports_one :
    newlineNormalized [Char.ofNat 0xE9] = [(1, Char.ofNat 0xE9)] ∧
    utf8Len (Char.ofNat 0xE9) = 2 ∧
    newlineNormalized ['\r', '\n'] = [(2, '\n')] ∧
    newlineNormalized ['\r'] = [(1, '\n')] := by
  refine ⟨?_, rfl, rfl, rfl⟩
  decide

/-- C8: the claim says interning the empty string succeeds and returns the
sentinel id 0; src/dom.rs `Dom::insert_text("")` instead panics, because
`Soup::find` calls `slice::windows(0)`. The panic-faithful embedding
errors on the empty string (and succeeds on a nonempty one). -/
theorem insert_text_empty_string_panics :
    Dom.insertTextE Dom.new "".data = .error () ∧
    Dom.insertTextE Dom.new "a".data = .ok
      ({ Dom.new with text := strBytes "a".data,
                      ranges := [(0, 0), (0, 1)] }, 1) := by
  exact ⟨rfl, rfl⟩

/-- C9: the claim says the serializer renders element nodes as `<name>`
(the root as `<>`) and text nodes as `<>text`; src/dom.rs `write_node`
renders `<name:id>` and `<:id>text`, so already the root-only document
prints `<:0>` instead of `<>` (indentation and one-node-per-line do hold). -/
theorem write_tree_renders_ids :
    Dom.new.writeTree 2 = some (strBytes "<:0>\n".data) ∧
    Dom.new.writeTree 2 ≠ some (strBytes "<>\n".data) := by
  refine ⟨rfl, ?_⟩
  decide

/-- C10: on the input `"</"` the tokenizer recovers from EOF in
`EndTagOpen`: it forces the EOF flag, emits `Char('<')` at the saved tag
location, then the synthetic `Char('/')`, and afterwards a further poll
returns terminal `None`. -/
theorem end_tag_open_eof_recovery :
    ((runTokenizer "</").map fun r => (r.1, r.2.2.inner.forceEof)) =
      some ([({ line := 1, column := 1 }, Tok.char '<'),
             ({ line := 1, column := 2 }, Tok.char '/')], true) ∧
    ((runTokenizer "</").map fun r =>
        match pollNext r.2.1 r.2.2 with
        | .done _ _ => true
        | _ => false) = some true := by
  exact ⟨rfl, rfl⟩

/-- C2: parsing `<title>X</title>` yields the `Title` event for the title
element (stable id 3) followed by `Done`; the title element has exactly one
child, the text node 4 with content `"X"`; and the final tree is
root → html → head → title → text `"X"`, with body a sibling of head
(html's children are head then body, in insertion order). -/
theorem title_parse_events_and_tree :
    ((runParse "<title>X</title>").map fun r =>
      (r.1, r.2.1.kidIdsOf rootNodeId, r.2.1.nameBytesOf 1, r.2.1.kidIdsOf 1,
        r.2.1.nameBytesOf 2, r.2.1.kidIdsOf 2, r.2.1.nameBytesOf 3,
        r.2.1.kidIdsOf 3, r.2.1.textBytesOf 4, r.2.1.nameBytesOf 5)) =
    some ([ParseEvent.title 3, ParseEvent.done],
      some [1], some (strBytes "html".data), some [2, 5],
      some (strBytes "head".data), some [3], some (strBytes "title".data),
      some [4], some (strBytes "X".data), some (strBytes "body".data)) := by
  exact rfl

/-- C6: the claim says the `skip_next_linefeed` flag is cleared on the very
next token fetch in all cases, so only an immediately following linefeed is
dropped. The code clears the flag only when the fetched token is
`Char('\n')`: on `<pre>a\nb` the flag survives the `'a'` fetch and the later
linefeed is dropped as well, so the pre element's single text child reads
`"ab"` instead of the claimed `"a\nb"`. -/
theorem pre_drops_non_adjacent_linefeed :
    ((runParse "<pre>a\nb").map fun r =>
      (r.1, r.2.1.nameBytesOf 4, r.2.1.kidIdsOf 4, r.2.1.textBytesOf 5)) =
    some ([ParseEvent.done], some (strBytes "pre".data), some [5],
      some (strBytes "ab".data)) ∧
    strBytes "ab".data ≠ strBytes "a\nb".data := by
  refine ⟨rfl, ?_⟩
  decide

theorem findPair_go_sound (p : Nat × Nat) :
    ∀ (l : List (Nat × Nat)) (i0 k : Nat),
      findPair.go p l i0 = some k → ∃ m, k = i0 + m ∧ l.get? m = some p := by
  intro l
  induction l with
  | nil => intro i0 k h; simp [findPair.go] at h
  | cons q rest ih =>
    intro i0 k h
    by_cases hq : q = p
    · refine ⟨0, ?_, ?_⟩
      · simp [findPair.go, hq] at h
        omega
      · simp [hq]
    · simp only [findPair.go, if_neg hq] at h
      obtain ⟨m, hk, hget⟩ := ih (i0 + 1) k h
      exact ⟨m + 1, by omega, by simpa using hget⟩

theorem findPair_get {l : List (Nat × Nat)} {p : Nat × Nat} {i : Nat}
    (h : findPair l p = some i) : l.get? i = some p := by
  obtain ⟨m, hm, hget⟩ := findPair_go_sound p l 0 i h
  rw [hm]
  simpa using hget

theorem insertRange_spec (d : Dom) (r : Nat × Nat) :
    (d.insertRange r).1.ranges.get? (d.insertRange r).2 = some r ∧
    (d.insertRange r).1.nodes = d.nodes ∧
    (d.insertRange r).1.text = d.text ∧
    (d.insertRange r).1.attrs = d.attrs ∧
    (d.insertRange r).1.nodeIdCounter = d.nodeIdCounter := by
  unfold Dom.insertRange
  cases h : findPair d.ranges r with
  | some i => simpa using findPair_get h
  | none => simp [List.get?_concat_length]

theorem invalidateRange_go_length (s e : Nat) :
    ∀ (l : List Node) (i : Nat), (invalidateRange.go s e i l).length = l.length := by
  intro l
  induction l with
  | nil => intro i; rfl
  | cons n rest ih => intro i; simp [invalidateRange.go, ih]

theorem invalidateRange_length (l : List Node) (s e : Nat) :
    (invalidateRange l s e).length = l.length :=
  invalidateRange_go_length s e l 0

theorem invalidateRange_go_get (s e : Nat) :
    ∀ (l : List Node) (i m : Nat),
      (invalidateRange.go s e i l).get? m =
        (l.get? m).map fun n => if s ≤ i + m ∧ i + m < e then n.invalidate else n := by
  intro l
  induction l with
  | nil => intro i m; rfl
  | cons n rest ih =>
    intro i m
    cases m with
    | zero => simp [invalidateRange.go]
    | succ m2 =>
      simp only [invalidateRange.go, List.get?_cons_succ]
      rw [ih (i + 1) m2]
      have : i + 1 + m2 = i + (m2 + 1) := by omega
      rw [this]

theorem invalidateRange_get (l : List Node) (s e m : Nat) :
    (invalidateRange l s e).get? m =
      (l.get? m).map fun n => if s ≤ m ∧ m < e then n.invalidate else n := by
  have h := invalidateRange_go_get s e l 0 m
  simpa using h

theorem Node.invalidate_id (n : Node) : n.invalidate.id = invalidNodeId := by
  cases n <;> rfl

theorem dropTake_get {α : Type} (l : List α) (s k m : Nat) (h : m < k) :
    ((l.drop s).take k).get? m = l.get? (s + m) := by
  rw [List.get?_take h, List.get?_drop]

theorem dropTake_length {α : Type} (l : List α) (s e : Nat) (hse : s ≤ e)
    (hel : e ≤ l.length) : ((l.drop s).take (e - s)).length = e - s := by
  simp [List.length_take, List.length_drop]
  omega

theorem findNode_go_sound (id : Nat) :
    ∀ (l : List Node) (i0 k : Nat) (n : Node),
      findNode.go id l i0 = some (k, n) →
      ∃ m, k = i0 + m ∧ l.get? m = some n ∧ n.id = id ∧
        ∀ m2 < m, ∀ nm, l.get? m2 = some nm → nm.id ≠ id := by
  intro l
  induction l with
  | nil => intro i0 k n h; simp [findNode.go] at h
  | cons n0 rest ih =>
    intro i0 k n h
    by_cases h0 : n0.id = id
    · simp only [findNode.go, if_pos h0, Option.some.injEq, Prod.mk.injEq] at h
      obtain ⟨hk, hn⟩ := h
      refine ⟨0, by omega, ?_, ?_, ?_⟩
      · simp [hn]
      · rw [← hn]; exact h0
      · intro m2 hm2; omega
    · simp only [findNode.go, if_neg h0] at h
      obtain ⟨m, hk, hget, hid, hfirst⟩ := ih (i0 + 1) k n h
      refine ⟨m + 1, by omega, by simpa using hget, hid, ?_⟩
      intro m2 hm2 nm hget2
      cases m2 with
      | zero =>
        simp at hget2
        rw [← hget2]
        exact h0
      | succ m3 =>
        rw [List.get?_cons_succ] at hget2
        exact hfirst m3 (by omega) nm hget2

theorem findNode_go_complete (id : Nat) :
    ∀ (l : List Node) (i0 m : Nat) (n : Node),
      l.get? m = some n → n.id = id →
      (∀ m2 < m, ∀ nm, l.get? m2 = some nm → nm.id ≠ id) →
      findNode.go id l i0 = some (i0 + m, n) := by
  intro l
  induction l with
  | nil => intro i0 m n h; simp at h
  | cons n0 rest ih =>
    intro i0 m n hget hid hfirst
    cases m with
    | zero =>
      rw [List.get?_cons_zero, Option.some.injEq] at hget
      subst hget
      simp only [findNode.go, if_pos hid, Nat.add_zero]
    | succ m3 =>
      have h0 : n0.id ≠ id := by
        have := hfirst 0 (by omega) n0 (by rw [List.get?_cons_zero])
        exact this
      rw [List.get?_cons_succ] at hget
      have hrest : findNode.go id rest (i0 + 1) = some (i0 + 1 + m3, n) := by
        apply ih (i0 + 1) m3 n hget hid
        intro m2 hm2 nm hg2
        exact hfirst (m2 + 1) (by omega) nm (by rw [List.get?_cons_succ]; exact hg2)
      simp only [findNode.go, if_neg h0]
      rw [hrest]
      congr 2
      omega


/-- C4: for every element with `k` children (its kids range `[s, e)` with
`k = e - s`), immediately after `append_child_element` or
`append_child_text` the parent's kids range covers exactly `k + 1`
contiguous nodes at the end of the node vector, and every node in that
range carries a valid (non-INVALID) stable id. -/
theorem append_child_kids_grow_by_one
    (d : Dom) (idx : Nat) (parent : ElementNode) (name attrsId : Nat)
    (txt : List Char) (s e : Nat)
    (hidx : idx < d.nodes.length)
    (hr : d.rangeAt parent.kids = some (s, e))
    (hse : s ≤ e) (hel : e ≤ d.nodes.length)
    (hvalid : ∀ nd ∈ (d.nodes.drop s).take (e - s), nd.id ≠ invalidNodeId)
    (hctr : d.nodeIdCounter + 1 ≠ invalidNodeId) :
    (∃ d2 newId p2,
      d.appendChildElementAt idx parent name attrsId = some (d2, newId) ∧
      d2.nodes.get? idx = some (.element p2) ∧
      d2.rangeAt p2.kids = some (d.nodes.length, d.nodes.length + ((e - s) + 1)) ∧
      d2.nodes.length = d.nodes.length + ((e - s) + 1) ∧
      ∀ j, d.nodes.length ≤ j → j < d.nodes.length + ((e - s) + 1) →
        ∃ nd, d2.nodes.get? j = some nd ∧ nd.id ≠ invalidNodeId) ∧
    (∃ d2 newId p2,
      d.appendChildTextAt idx parent txt = some (d2, newId) ∧
      d2.nodes.get? idx = some (.element p2) ∧
      d2.rangeAt p2.kids = some (d.nodes.length, d.nodes.length + ((e - s) + 1)) ∧
      d2.nodes.length = d.nodes.length + ((e - s) + 1) ∧
      ∀ j, d.nodes.length ≤ j → j < d.nodes.length + ((e - s) + 1) →
        ∃ nd, d2.nodes.get? j = some nd ∧ nd.id ≠ invalidNodeId) := by
  constructor
  ·
    have hklen : ((d.nodes.drop s).take (e - s)).length = e - s :=
      dropTake_length d.nodes s e hse hel
    unfold Dom.appendChildElementAt
    rw [hr]
    dsimp only
    rw [if_pos ⟨hse, hel⟩]
    set oldKids := (d.nodes.drop s).take (e - s) with hOK
    set nodes1 := invalidateRange d.nodes s e with hN1
    have hlen1 : nodes1.length = d.nodes.length := invalidateRange_length _ _ _
    set newChild : Node := .element
      { id := d.nodeIdCounter + 1, name := name, attrs := attrsId,
        kids := emptyRangeIndex } with hNC
    set dmid : Dom :=
      { d with nodes := nodes1 ++ oldKids ++ [newChild],
               nodeIdCounter := d.nodeIdCounter + 1 } with hdmid
    obtain ⟨hg, hnodes, -, -, -⟩ :=
      insertRange_spec dmid (nodes1.length, nodes1.length + (oldKids.length + 1))
    rcases hir : Dom.insertRange dmid (nodes1.length, nodes1.length + (oldKids.length + 1))
      with ⟨d2, kidsId⟩
    rw [hir] at hg hnodes
    dsimp only at hg hnodes ⊢
    have hlen2 : d2.nodes.length = d.nodes.length + ((e - s) + 1) := by
      rw [hnodes]
      simp [List.length_append, hlen1, hklen]
    refine ⟨_, _, { parent with kids := kidsId }, rfl, ?_, ?_, ?_, ?_⟩
    · have hidx2 : idx < d2.nodes.length := by omega
      rw [List.get?_set_eq]
      cases hnd : d2.nodes.get? idx with
      | none =>
        rw [List.get?_eq_none] at hnd
        omega
      | some nd => rfl
    · show d2.ranges.get? kidsId = _
      rw [hg, hlen1, hklen]
    · simp [List.length_set, hlen2]
    · intro j hj1 hj2
      have hne : idx ≠ j := by omega
      rw [List.get?_set_ne _ _ hne]
      rw [hnodes, List.append_assoc, List.get?_append_right (by omega : nodes1.length ≤ j)]
      rw [hlen1]
      rcases Nat.lt_or_ge (j - d.nodes.length) (e - s) with hlt | hge
      · rw [List.get?_append (by omega : j - d.nodes.length < oldKids.length)]
        cases hnd : oldKids.get? (j - d.nodes.length) with
        | none =>
          rw [List.get?_eq_none] at hnd
          omega
        | some nd => exact ⟨nd, rfl, hvalid nd (List.get?_mem hnd)⟩
      · have hj : j - d.nodes.length = oldKids.length := by omega
        rw [List.get?_append_right (by omega : oldKids.length ≤ j - d.nodes.length), hj]
        simp only [Nat.sub_self]
        exact ⟨newChild, rfl, hctr⟩
  ·
    have hklen : ((d.nodes.drop s).take (e - s)).length = e - s :=
      dropTake_length d.nodes s e hse hel
    unfold Dom.appendChildTextAt
    rw [hr]
    dsimp only
    rw [if_pos ⟨hse, hel⟩]
    set oldKids := (d.nodes.drop s).take (e - s) with hOK
    set nodes1 := invalidateRange d.nodes s e with hN1
    have hlen1 : nodes1.length = d.nodes.length := invalidateRange_length _ _ _
    rcases hsa : soupAppend d.text (strBytes txt) with ⟨text2, r1, r2⟩
    dsimp only
    set newChild : Node := .text
      { id := d.nodeIdCounter + 1, start := r1, stop := r2 } with hNC
    set dmid : Dom :=
      { d with text := text2, nodes := nodes1 ++ oldKids ++ [newChild],
               nodeIdCounter := d.nodeIdCounter + 1 } with hdmid
    obtain ⟨hg, hnodes, -, -, -⟩ :=
      insertRange_spec dmid (nodes1.length, nodes1.length + (oldKids.length + 1))
    rcases hir : Dom.insertRange dmid (nodes1.length, nodes1.length + (oldKids.length + 1))
      with ⟨d2, kidsId⟩
    rw [hir] at hg hnodes
    dsimp only at hg hnodes ⊢
    have hlen2 : d2.nodes.length = d.nodes.length + ((e - s) + 1) := by
      rw [hnodes]
      simp [List.length_append, hlen1, hklen]
    refine ⟨_, _, { parent with kids := kidsId }, rfl, ?_, ?_, ?_, ?_⟩
    · have hidx2 : idx < d2.nodes.length := by omega
      rw [List.get?_set_eq]
      cases hnd : d2.nodes.get? idx with
      | none =>
        rw [List.get?_eq_none] at hnd
        omega
      | some nd => rfl
    · show d2.ranges.get? kidsId = _
      rw [hg, hlen1, hklen]
    · simp [List.length_set, hlen2]
    · intro j hj1 hj2
      have hne : idx ≠ j := by omega
      rw [List.get?_set_ne _ _ hne]
      rw [hnodes, List.append_assoc, List.get?_append_right (by omega : nodes1.length ≤ j)]
      rw [hlen1]
      rcases Nat.lt_or_ge (j - d.nodes.length) (e - s) with hlt | hge
      · rw [List.get?_append (by omega : j - d.nodes.length < oldKids.length)]
        cases hnd : oldKids.get? (j - d.nodes.length) with
        | none =>
          rw [List.get?_eq_none] at hnd
          omega
        | some nd => exact ⟨nd, rfl, hvalid nd (List.get?_mem hnd)⟩
      · have hj : j - d.nodes.length = oldKids.length := by omega
        rw [List.get?_append_right (by omega : oldKids.length ≤ j - d.nodes.length), hj]
        simp only [Nat.sub_self]
        exact ⟨newChild, rfl, hctr⟩

/-- C5: for every element node with stable id `i`, looking the element up
by id returns the same element (same stable id, name, attrs and kids ids)
after the children of any other element `j` are mutated by an append-child
operation, even though the looked-up node's vector index may have changed
(the returned index is `ii2`, which in the relocation case differs from the
old index). The hypotheses are the store invariants: bounds of the mutated
element's kids range and pairwise-distinct valid stable ids. -/
theorem get_element_unchanged_by_other_append
    (d : Dom) (i j ii ji : Nat) (el pj : ElementNode) (name attrsId s e : Nat)
    (hiv : i ≠ invalidNodeId)
    (hij : i ≠ j)
    (hi : d.getNodeById i = some (ii, .element el))
    (hj : d.getNodeById j = some (ji, .element pj))
    (hr : d.rangeAt pj.kids = some (s, e))
    (hse : s ≤ e) (hel : e ≤ d.nodes.length)
    (hpw : d.nodes.Pairwise fun n1 n2 => n1.id = n2.id → n1.id = invalidNodeId) :
    ∃ d2 newId ii2,
      d.appendChildElementAt ji pj name attrsId = some (d2, newId) ∧
      d2.getNodeById i = some (ii2, .element el) := by
  -- unpack the two lookups
  obtain ⟨mi, hii0, hii_get, hii_id, hii_first⟩ :=
    findNode_go_sound i d.nodes 0 ii (.element el) hi
  obtain ⟨mj, hji0, hji_get, hji_id, hji_first⟩ :=
    findNode_go_sound j d.nodes 0 ji (.element pj) hj
  have hmi : mi = ii := by omega
  have hmj : mj = ji := by omega
  rw [hmi] at hii_get hii_first
  rw [hmj] at hji_get hji_first
  have hel_id : el.id = i := hii_id
  have hpj_id : pj.id = j := hji_id
  have hii_lt : ii < d.nodes.length := by
    obtain ⟨h, -⟩ := List.get?_eq_some.mp hii_get
    exact h
  have hji_lt : ji < d.nodes.length := by
    obtain ⟨h, -⟩ := List.get?_eq_some.mp hji_get
    exact h
  -- positional uniqueness of valid ids, from the pairwise hypothesis
  have huniq : ∀ a b na nb, d.nodes.get? a = some na → d.nodes.get? b = some nb →
      na.id = nb.id → na.id ≠ invalidNodeId → a = b := by
    intro a b na nb hga hgb heq hval
    rcases Nat.lt_trichotomy a b with hlt | heqab | hgt
    · obtain ⟨ha, hga2⟩ := List.get?_eq_some.mp hga
      obtain ⟨hb, hgb2⟩ := List.get?_eq_some.mp hgb
      have := (List.pairwise_iff_get.mp hpw) ⟨a, ha⟩ ⟨b, hb⟩ hlt
      rw [hga2, hgb2] at this
      exact absurd (this heq) hval
    · exact heqab
    · obtain ⟨ha, hga2⟩ := List.get?_eq_some.mp hga
      obtain ⟨hb, hgb2⟩ := List.get?_eq_some.mp hgb
      have := (List.pairwise_iff_get.mp hpw) ⟨b, hb⟩ ⟨a, ha⟩ hgt
      rw [hga2, hgb2] at this
      exact absurd (this heq.symm) (heq ▸ hval)
  have hne_ji_ii : ji ≠ ii := by
    intro hcontra
    rw [hcontra] at hji_get
    rw [hii_get, Option.some.injEq, Node.element.injEq] at hji_get
    rw [← hji_get] at hpj_id
    rw [hel_id] at hpj_id
    exact hij hpj_id
  -- run the append and analyse the resulting node vector
  have hklen : ((d.nodes.drop s).take (e - s)).length = e - s :=
    dropTake_length d.nodes s e hse hel
  unfold Dom.appendChildElementAt
  rw [hr]
  dsimp only
  rw [if_pos ⟨hse, hel⟩]
  set oldKids := (d.nodes.drop s).take (e - s) with hOK
  set nodes1 := invalidateRange d.nodes s e with hN1
  have hlen1 : nodes1.length = d.nodes.length := invalidateRange_length _ _ _
  set newChild : Node := .element
    { id := d.nodeIdCounter + 1, name := name, attrs := attrsId,
      kids := emptyRangeIndex } with hNC
  set dmid : Dom :=
    { d with nodes := nodes1 ++ oldKids ++ [newChild],
             nodeIdCounter := d.nodeIdCounter + 1 } with hdmid
  obtain ⟨hg, hnodes, -, -, -⟩ :=
    insertRange_spec dmid (nodes1.length, nodes1.length + (oldKids.length + 1))
  rcases hir : Dom.insertRange dmid (nodes1.length, nodes1.length + (oldKids.length + 1))
    with ⟨d2, kidsId⟩
  rw [hir] at hg hnodes
  dsimp only at hg hnodes ⊢
  set pj2 : ElementNode := { pj with kids := kidsId } with hPJ2
  set F : List Node := d2.nodes.set ji (.element pj2) with hF
  have hlen2 : d2.nodes.length = d.nodes.length + ((e - s) + 1) := by
    rw [hnodes]
    simp [List.length_append, hlen1, hklen]
  have hFji : F.get? ji = some (.element pj2) := by
    rw [hF, List.get?_set_eq]
    cases hnd : d2.nodes.get? ji with
    | none =>
      rw [List.get?_eq_none] at hnd
      omega
    | some nd => rfl
  have hFleft : ∀ m2, m2 ≠ ji → m2 < d.nodes.length →
      F.get? m2 = (d.nodes.get? m2).map
        fun n => if s ≤ m2 ∧ m2 < e then n.invalidate else n := by
    intro m2 hne hlt
    rw [hF, List.get?_set_ne _ _ (Ne.symm hne)]
    rw [hnodes]
    rw [List.append_assoc, List.get?_append (by omega : m2 < nodes1.length)]
    exact invalidateRange_get d.nodes s e m2
  have hFright : ∀ m2, d.nodes.length ≤ m2 →
      F.get? m2 = (oldKids ++ [newChild]).get? (m2 - d.nodes.length) := by
    intro m2 hge
    rw [hF, List.get?_set_ne _ _ (by omega : ji ≠ m2)]
    rw [hnodes]
    rw [List.append_assoc, List.get?_append_right (by omega : nodes1.length ≤ m2)]
    rw [hlen1]
  by_cases hin : s ≤ ii ∧ ii < e
  · -- the looked-up element is itself a child of the mutated parent: relocated
    refine ⟨_, _, d.nodes.length + (ii - s), rfl, ?_⟩
    show findNode.go i (List.set _ _ _) 0 = _
    rw [← hF]
    have hget : F.get? (d.nodes.length + (ii - s)) = some (.element el) := by
      rw [hFright _ (by omega)]
      have hsub : d.nodes.length + (ii - s) - d.nodes.length = ii - s := by omega
      rw [hsub]
      rw [List.get?_append (by omega : ii - s < oldKids.length)]
      rw [hOK, dropTake_get d.nodes s (e - s) (ii - s) (by omega)]
      have : s + (ii - s) = ii := by omega
      rw [this]
      exact hii_get
    have hfirst : ∀ m2 < d.nodes.length + (ii - s), ∀ nm,
        F.get? m2 = some nm → nm.id ≠ i := by
      intro m2 hm2 nm hg2
      by_cases hji : m2 = ji
      · rw [hji, hFji, Option.some.injEq] at hg2
        rw [← hg2]
        show pj2.id ≠ i
        have : pj2.id = pj.id := rfl
        rw [this, hpj_id]
        omega
      · by_cases hlt : m2 < d.nodes.length
        · rw [hFleft m2 hji hlt] at hg2
          cases hnd : d.nodes.get? m2 with
          | none => rw [hnd] at hg2; simp at hg2
          | some nd =>
            rw [hnd] at hg2
            simp only [Option.map_some', Option.some.injEq] at hg2
            by_cases hrange : s ≤ m2 ∧ m2 < e
            · rw [if_pos hrange] at hg2
              rw [← hg2, Node.invalidate_id]
              omega
            · rw [if_neg hrange] at hg2
              rw [← hg2]
              intro hidm
              have hm2ii : m2 = ii :=
                huniq m2 ii nd (.element el) hnd hii_get
                  (by rw [hidm]; exact hel_id.symm) (by rw [hidm]; exact hiv)
              rw [hm2ii] at hrange
              exact hrange hin
        · have hge : d.nodes.length ≤ m2 := by omega
          rw [hFright m2 hge] at hg2
          rw [List.get?_append (by omega : m2 - d.nodes.length < oldKids.length)] at hg2
          rw [hOK, dropTake_get d.nodes s (e - s) (m2 - d.nodes.length) (by omega)] at hg2
          intro hidm
          have hq : s + (m2 - d.nodes.length) = ii :=
            huniq (s + (m2 - d.nodes.length)) ii nm (.element el) hg2 hii_get
              (by rw [hidm]; exact hel_id.symm) (by rw [hidm]; exact hiv)
          omega
    have := findNode_go_complete i F 0 (d.nodes.length + (ii - s)) (.element el)
      hget hel_id hfirst
    simpa using this
  · -- the looked-up element is elsewhere: untouched at its old index
    refine ⟨_, _, ii, rfl, ?_⟩
    show findNode.go i (List.set _ _ _) 0 = _
    rw [← hF]
    have hget : F.get? ii = some (.element el) := by
      rw [hFleft ii (Ne.symm hne_ji_ii) hii_lt]
      rw [hii_get]
      simp only [Option.map_some', if_neg hin]
    have hfirst : ∀ m2 < ii, ∀ nm, F.get? m2 = some nm → nm.id ≠ i := by
      intro m2 hm2 nm hg2
      by_cases hji : m2 = ji
      · rw [hji, hFji, Option.some.injEq] at hg2
        rw [← hg2]
        show pj2.id ≠ i
        have : pj2.id = pj.id := rfl
        rw [this, hpj_id]
        omega
      · have hlt : m2 < d.nodes.length := by omega
        rw [hFleft m2 hji hlt] at hg2
        cases hnd : d.nodes.get? m2 with
        | none => rw [hnd] at hg2; simp at hg2
        | some nd =>
          rw [hnd] at hg2
          simp only [Option.map_some', Option.some.injEq] at hg2
          by_cases hrange : s ≤ m2 ∧ m2 < e
          · rw [if_pos hrange] at hg2
            rw [← hg2, Node.invalidate_id]
            omega
          · rw [if_neg hrange] at hg2
            rw [← hg2]
            exact hii_first m2 hm2 nd hnd
    have := findNode_go_complete i F 0 ii (.element el) hget hel_id hfirst
    simpa using this


theorem append_child_kids_grow_by_one_witness :
    (∃ d2 newId p2,
      Dom.new.appendChildElementAt 0 ⟨0, 0, 0, 0⟩ 5 0 = some (d2, newId) ∧
      d2.nodes.get? 0 = some (.element p2) ∧
      d2.rangeAt p2.kids =
        some (Dom.new.nodes.length, Dom.new.nodes.length + ((0 - 0) + 1)) ∧
      d2.nodes.length = Dom.new.nodes.length + ((0 - 0) + 1) ∧
      ∀ j, Dom.new.nodes.length ≤ j →
        j < Dom.new.nodes.length + ((0 - 0) + 1) →
        ∃ nd, d2.nodes.get? j = some nd ∧ nd.id ≠ invalidNodeId) ∧
    (∃ d2 newId p2,
      Dom.new.appendChildTextAt 0 ⟨0, 0, 0, 0⟩ "x".data = some (d2, newId) ∧
      d2.nodes.get? 0 = some (.element p2) ∧
      d2.rangeAt p2.kids =
        some (Dom.new.nodes.length, Dom.new.nodes.length + ((0 - 0) + 1)) ∧
      d2.nodes.length = Dom.new.nodes.length + ((0 - 0) + 1) ∧
      ∀ j, Dom.new.nodes.length ≤ j →
        j < Dom.new.nodes.length + ((0 - 0) + 1) →
        ∃ nd, d2.nodes.get? j = some nd ∧ nd.id ≠ invalidNodeId) :=
  append_child_kids_grow_by_one Dom.new 0 ⟨0, 0, 0, 0⟩ 5 0 "x".data 0 0
    (by decide) rfl (by decide) (by decide) (by simp) (by decide)

theorem get_element_unchanged_by_other_append_witness :
    ∃ d2 newId ii2,
      (Dom.mk [] [(0, 0), (1, 3)]
          [.element ⟨0, 0, 0, 1⟩, .element ⟨1, 0, 0, 0⟩, .element ⟨2, 0, 0, 0⟩]
          2 []).appendChildElementAt 0 ⟨0, 0, 0, 1⟩ 9 0 = some (d2, newId) ∧
      d2.getNodeById 1 = some (ii2, .element ⟨1, 0, 0, 0⟩) :=
  get_element_unchanged_by_other_append
    (Dom.mk [] [(0, 0), (1, 3)]
      [.element ⟨0, 0, 0, 1⟩, .element ⟨1, 0, 0, 0⟩, .element ⟨2, 0, 0, 0⟩]
      2 [])
    1 0 1 0 ⟨1, 0, 0, 0⟩ ⟨0, 0, 0, 1⟩ 9 0 1 3
    (by decide) (by decide) rfl rfl rfl (by decide) (by decide) (by decide)

theorem mergeMissing_spec :
    ∀ (new cur : List (Nat × Nat)),
      ∃ extra, mergeMissing cur new = cur ++ extra ∧
        ∀ q ∈ extra, ∀ q2 ∈ cur, q.1 ≠ q2.1 := by
  intro new
  induction new with
  | nil => intro cur; exact ⟨[], by simp [mergeMissing], by simp⟩
  | cons p rest ih =>
    intro cur
    rcases p with ⟨n, v⟩
    by_cases hany : cur.any fun q => q.1 = n
    · obtain ⟨extra, he, hd⟩ := ih cur
      refine ⟨extra, ?_, hd⟩
      simp only [mergeMissing, if_pos hany]
      exact he
    · obtain ⟨extra, he, hd⟩ := ih (cur ++ [(n, v)])
      refine ⟨(n, v) :: extra, ?_, ?_⟩
      · simp only [mergeMissing, if_neg hany]
        rw [he, List.append_assoc, List.singleton_append]
      · intro q hq q2 hq2
        rcases List.mem_cons.mp hq with rfl | hmem
        · intro hqn
          apply hany
          rw [List.any_eq_true]
          exact ⟨q2, hq2, by simpa using hqn.symm⟩
        · exact hd q hmem q2 (List.mem_append_left _ hq2)

theorem lookupAttr_append_left (cur extra : List (Nat × Nat)) (nm : Nat)
    (h : ∃ q ∈ cur, q.1 = nm) :
    lookupAttr (cur ++ extra) nm = lookupAttr cur nm := by
  induction cur with
  | nil => simp at h
  | cons q0 rest ih =>
    by_cases h0 : q0.1 = nm
    · simp only [List.cons_append, lookupAttr, if_pos h0]
    · simp only [List.cons_append, lookupAttr, if_neg h0]
      apply ih
      obtain ⟨q, hq, hqn⟩ := h
      rcases List.mem_cons.mp hq with rfl | hmem
      · exact absurd hqn h0
      · exact ⟨q, hmem, hqn⟩


/-- C7: `insert_missing_attrs` (as invoked on duplicate `<html>`/`<body>`
start tags) adds only attributes whose names are not already present on the
element, and leaves the value of every already-present attribute name
untouched: the element's attribute list becomes `cur ++ extra` where every
added name is absent from `cur`, so every lookup of a present name is
unchanged. -/
theorem insert_missing_attrs_non_overwriting
    (d : Dom) (elId idx : Nat) (el : ElementNode) (attrsId : Nat)
    (cur newPairs : List (Nat × Nat))
    (hel : d.getNodeById elId = some (idx, .element el))
    (hcur : d.attrSlice el.attrs = some cur)
    (hnew : d.attrSlice attrsId = some newPairs) :
    ∃ d2, d.insertMissingAttrsAt idx el attrsId = some d2 ∧
    ∃ el2, d2.getNodeById elId = some (idx, .element el2) ∧
      el2.id = el.id ∧ el2.name = el.name ∧ el2.kids = el.kids ∧
    ∃ extra, d2.attrSlice el2.attrs = some (cur ++ extra) ∧
      (∀ q ∈ extra, ∀ q2 ∈ cur, q.1 ≠ q2.1) ∧
      (∀ nm, (∃ q ∈ cur, q.1 = nm) →
        lookupAttr (cur ++ extra) nm = lookupAttr cur nm) := by
  obtain ⟨m, h0, hget, hid, hfirst⟩ :=
    findNode_go_sound elId d.nodes 0 idx (.element el) hel
  have hm : m = idx := by omega
  rw [hm] at hget hfirst
  have hidx_lt : idx < d.nodes.length := by
    obtain ⟨h, -⟩ := List.get?_eq_some.mp hget
    exact h
  obtain ⟨extra, hmg, hdisj⟩ := mergeMissing_spec newPairs cur
  unfold Dom.insertMissingAttrsAt
  rw [hcur, hnew]
  dsimp only
  set merged := mergeMissing cur newPairs with hM
  set dmid : Dom := { d with attrs := d.attrs ++ merged } with hdmid
  obtain ⟨hg, hnodes, -, hattrs, -⟩ :=
    insertRange_spec dmid (d.attrs.length, d.attrs.length + merged.length)
  rcases hir : Dom.insertRange dmid (d.attrs.length, d.attrs.length + merged.length)
    with ⟨d2, attrsId2⟩
  rw [hir] at hg hnodes hattrs
  dsimp only at hg hnodes hattrs ⊢
  set el2 : ElementNode := { el with attrs := attrsId2 } with hEL2
  refine ⟨_, rfl, el2, ?_, rfl, rfl, rfl, extra, ?_, hdisj, ?_⟩
  · show findNode.go elId (d2.nodes.set idx (.element el2)) 0 = _
    have hget2 : (d2.nodes.set idx (.element el2)).get? idx = some (.element el2) := by
      rw [List.get?_set_eq]
      cases hnd : d2.nodes.get? idx with
      | none =>
        rw [List.get?_eq_none] at hnd
        rw [hnodes] at hnd
        omega
      | some nd => rfl
    have hfirst2 : ∀ m2 < idx, ∀ nm,
        (d2.nodes.set idx (.element el2)).get? m2 = some nm → nm.id ≠ elId := by
      intro m2 hm2 nm hg2
      rw [List.get?_set_ne _ _ (by omega : idx ≠ m2), hnodes] at hg2
      exact hfirst m2 hm2 nm hg2
    have := findNode_go_complete elId (d2.nodes.set idx (.element el2)) 0 idx
      (.element el2) hget2 hid hfirst2
    simpa using this
  · show Dom.attrSlice _ el2.attrs = _
    unfold Dom.attrSlice Dom.rangeAt
    dsimp only
    show (match d2.ranges.get? el2.attrs with
      | some (s, e) =>
        if s ≤ e ∧ e ≤ (d2.attrs).length then
          some (((d2.attrs).drop s).take (e - s))
        else none
      | none => none) = some (cur ++ extra)
    have : el2.attrs = attrsId2 := rfl
    rw [this, hg]
    dsimp only
    rw [if_pos (by rw [hattrs]; constructor <;> simp)]
    rw [hattrs]
    rw [Nat.add_sub_cancel_left, List.drop_left, List.take_length]
    rw [← hmg, hM]
  · intro nm hnm
    exact lookupAttr_append_left cur extra nm hnm

theorem insert_missing_attrs_non_overwriting_witness :
    ∃ d2, (Dom.mk [] [(0, 0), (0, 1), (1, 3)]
        [.element ⟨0, 0, 0, 0⟩, .element ⟨1, 0, 1, 0⟩] 1
        [(1, 2), (1, 9), (3, 4)]).insertMissingAttrsAt 1 ⟨1, 0, 1, 0⟩ 2 =
        some d2 ∧
    ∃ el2, d2.getNodeById 1 = some (1, .element el2) ∧
      el2.id = (⟨1, 0, 1, 0⟩ : ElementNode).id ∧
      el2.name = (⟨1, 0, 1, 0⟩ : ElementNode).name ∧
      el2.kids = (⟨1, 0, 1, 0⟩ : ElementNode).kids ∧
    ∃ extra, d2.attrSlice el2.attrs = some ([(1, 2)] ++ extra) ∧
      (∀ q ∈ extra, ∀ q2 ∈ [((1 : Nat), (2 : Nat))], q.1 ≠ q2.1) ∧
      (∀ nm, (∃ q ∈ [((1 : Nat), (2 : Nat))], q.1 = nm) →
        lookupAttr ([(1, 2)] ++ extra) nm = lookupAttr [(1, 2)] nm) :=
  insert_missing_attrs_non_overwriting
    (Dom.mk [] [(0, 0), (0, 1), (1, 3)]
      [.element ⟨0, 0, 0, 0⟩, .element ⟨1, 0, 1, 0⟩] 1
      [(1, 2), (1, 9), (3, 4)])
    1 1 ⟨1, 0, 1, 0⟩ 2 [(1, 2)] [(1, 9), (3, 4)] rfl rfl rfl

theorem setTagNameIfUnset_preserves (d : Dom) (i : TokInner) :
    (setTagNameIfUnset d i).2.startLoc = i.startLoc ∧
    (setTagNameIfUnset d i).2.loc = i.loc ∧
    (setTagNameIfUnset d i).2.tempBuffer = i.tempBuffer ∧
    (setTagNameIfUnset d i).2.syntheticToks = i.syntheticToks ∧
    (setTagNameIfUnset d i).2.lastStartTagEmittedName
      = i.lastStartTagEmittedName := by
  unfold setTagNameIfUnset
  cases htok : i.tok with
  | startTag name attrs sc =>
    by_cases h : name = emptyRangeIndex
    · rcases hins : d.insertStr i.strBuf with ⟨d2, name2⟩
      simp [h, hins]
    · simp [h]
  | endTag name =>
    by_cases h : name = emptyRangeIndex
    · rcases hins : d.insertStr i.strBuf with ⟨d2, name2⟩
      simp [h, hins]
    · simp [h]
  | char c => simp
  | docType => simp
  | comment => simp


/-- C3: when the tokenizer, scanning a potential end tag in RCDATA
(`RcDataEndTagName` on a terminator character), finds that the accumulated
name does not match `last_start_tag_emitted_name`, it emits `Char('<')` at
the saved tag location immediately, and the synthetic-token stack then
holds, from top to bottom (its pop order, `reverse`), `Char('/')` followed
by each buffered character with its original location — i.e. the
re-emission order is `'<'`, `'/'`, then the buffer in source order.
Moreover `poll_next` pops a nonempty synthetic stack without touching the
store or the reader, so the stack is drained completely before any further
input is read. -/
theorem rcdata_mismatch_reemits_source_order
    (fuel : Nat) (d : Dom) (i : TokInner) (len : Nat) (c : Char)
    (rest : List (Nat × Char)) (ne : Bool)
    (hstate : i.state = .rcDataEndTagName)
    (hsynth : i.syntheticToks = [])
    (hc : c = '\t' ∨ c = '\n' ∨ c = Char.ofNat 12 ∨ c = ' ' ∨ c = '/' ∨ c = '>')
    (hmm : ∀ nm, (setTagNameIfUnset d i).2.tok = Tok.endTag nm →
      i.lastStartTagEmittedName ≠ some nm) :
    ∃ d2 i2,
      innerNext (fuel + 1) d i ((len, c) :: rest) ne =
        .tok (i.startLoc, .char '<') d2 i2 ∧
      i2.state = .rcData ∧
      i2.tempBuffer = [] ∧
      i2.syntheticToks.reverse =
        (i.loc, Tok.char '/') ::
          (i.tempBuffer.map fun q => (q.1, Tok.char q.2)) ∧
      ∀ (dx : Dom) (tk : Tokenizer), tk.inner.syntheticToks ≠ [] →
        ∃ lt inner2,
          tk.inner.syntheticToks.getLast? = some lt ∧
          pollNext dx tk = .emit lt dx { tk with inner := inner2 } ∧
          inner2.syntheticToks = tk.inner.syntheticToks.dropLast := by
  obtain ⟨hsl, hlo, htb, hsy, hls⟩ := setTagNameIfUnset_preserves d i
  rcases hset : setTagNameIfUnset d i with ⟨dA, iA⟩
  rw [hset] at hsl hlo htb hsy hls hmm
  dsimp only at hsl hlo htb hsy hls hmm
  refine ⟨dA, rcDataFail iA, ?_, rfl, rfl, ?_, ?_⟩
  · -- the state-machine step emits the saved '<' and stacks '/' plus the buffer
    obtain ⟨cons, st, sb, ab, tb, ls, sy, fe, tk0, sl, lc⟩ := i
    dsimp only at hstate hsynth hsl hlo htb hsy hls hmm ⊢
    subst hstate
    subst hsynth
    have hfail : ∀ nm, iA.tok = Tok.endTag nm →
        ¬iA.lastStartTagEmittedName = some nm := by
      intro nm htok
      rw [hls]
      exact hmm nm htok
    rcases hc with rfl | rfl | rfl | rfl | rfl | rfl <;>
      · simp only [innerNext, List.head?_cons, Option.map_some', Option.isNone_some,
          Bool.false_and, Bool.false_eq_true, if_false, hset]
        simp only [show isTagWs '\t' = true from rfl, show isTagWs '\n' = true from rfl,
          show isTagWs (Char.ofNat 12) = true from rfl, show isTagWs ' ' = true from rfl,
          show isTagWs '/' = false from rfl, show isTagWs '>' = false from rfl,
          show (('>' : Char) = '/') = False from eq_false (by decide),
          show (('/' : Char) = '/') = True from eq_true rfl,
          show (('>' : Char) = '>') = True from eq_true rfl,
          if_true, if_false, Bool.false_eq_true, reduceCtorEq]
        cases htok : iA.tok <;> simp only [htok, hsl] <;>
          first
          | rw [if_neg (hfail _ htok)]
          | rfl
          | skip
  · -- popping the stack in LIFO order yields '/' then the buffered characters
    simp only [rcDataFail, hsy, hsynth, htb, hlo]
    simp [List.reverse_append]
  · -- a nonempty synthetic stack is popped without reading any input
    intro dx tk hne
    cases hlast : tk.inner.syntheticToks.getLast? with
    | none => exact absurd (List.getLast?_eq_none.mp hlast) hne
    | some lt =>
      refine ⟨lt,
        (match lt.2 with
          | Tok.startTag nm a sc =>
            { tk.inner with syntheticToks := tk.inner.syntheticToks.dropLast,
                            lastStartTagEmittedName := some nm }
          | _ => { tk.inner with syntheticToks := tk.inner.syntheticToks.dropLast }),
        rfl, ?_, ?_⟩
      · show pollNext dx tk = _
        cases lt2 : lt.2 <;> simp only [pollNext, hlast, lt2]
      · cases lt2 : lt.2 <;> simp only [lt2]

theorem rcdata_mismatch_reemits_source_order_witness :
    ∃ d2 i2,
      innerNext (0 + 1) Dom.new
        ⟨0, .rcDataEndTagName, ['x'], [], [({ line := 1, column := 4 }, 'x')],
          none, [], false, .endTag 0, { line := 1, column := 2 },
          { line := 1, column := 4 }⟩
        ((1, ' ') :: []) false =
        .tok ({ line := 1, column := 2 }, .char '<') d2 i2 ∧
      i2.state = .rcData ∧
      i2.tempBuffer = [] ∧
      i2.syntheticToks.reverse =
        ({ line := 1, column := 4 }, Tok.char '/') ::
          ([({ line := 1, column := 4 }, 'x')].map fun q => (q.1, Tok.char q.2)) ∧
      ∀ (dx : Dom) (tk : Tokenizer), tk.inner.syntheticToks ≠ [] →
        ∃ lt inner2,
          tk.inner.syntheticToks.getLast? = some lt ∧
          pollNext dx tk = .emit lt dx { tk with inner := inner2 } ∧
          inner2.syntheticToks = tk.inner.syntheticToks.dropLast :=
  rcdata_mismatch_reemits_source_order 0 Dom.new
    ⟨0, .rcDataEndTagName, ['x'], [], [({ line := 1, column := 4 }, 'x')],
      none, [], false, .endTag 0, { line := 1, column := 2 },
      { line := 1, column := 4 }⟩
    1 ' ' [] false rfl rfl (Or.inr (Or.inr (Or.inr (Or.inl rfl))))
    (fun nm _ => by simp)
